import Mathlib

/-!
Verification development for the `nlohmann_yaml` YAML-subset parser
(`src/include/nlohmann/yaml.hpp`).  The parser is shallowly embedded over
`List Char` lines: the C++ mutable cursor `current_line` becomes an explicit
`Nat` threaded through every operation, C++ exceptions become `Except Err`,
and the recursive-descent loops are driven by an explicit fuel argument
(the entry point supplies more fuel than any input can consume; running out
is modelled by the distinguished `Err.fuelExhausted`).
-/

namespace Yaml

/-- Single-quote character (kept out of literals for readability). -/
def sQuote : Char := Char.ofNat 39

/-- Double-quote character. -/
def dQuote : Char := Char.ofNat 34

/-- Backslash character. -/
def bSlash : Char := Char.ofNat 92

/-- Newline character. -/
def nlChar : Char := Char.ofNat 10

/-- Carriage-return character. -/
def crChar : Char := Char.ofNat 13

/-- Opening curly brace character. -/
def obrace : Char := Char.ofNat 123

/-- Closing curly brace character. -/
def cbrace : Char := Char.ofNat 125

/-- Characters of a string literal, used to state concrete test inputs. -/
def lchars (s : String) : List Char := s.toList

/-- The whitespace set `" \t"` used by the parser's trim operations. -/
def isSpaceTab (c : Char) : Bool := c = ' ' || c = '\t'

/-- Models `str.erase(0, str.find_first_not_of(" \t"))` (when the string is
all whitespace, `find_first_not_of` is `npos` and the erase removes all of it,
which `dropWhile` also does). -/
def trimLeading (l : List Char) : List Char := l.dropWhile isSpaceTab

/-- Models `str.erase(str.find_last_not_of(" \t") + 1)`. -/
def trimTrailing (l : List Char) : List Char := (l.reverse.dropWhile isSpaceTab).reverse

/-- Leading and trailing trim, in the order the C++ performs them. -/
def trimBoth (l : List Char) : List Char := trimTrailing (trimLeading l)

/-- The whitespace set `" \t\r\n"` trimmed from line ends by `preprocess_input`. -/
def isTrailWs (c : Char) : Bool := c = ' ' || c = '\t' || c = crChar || c = nlChar

/-- Comment stripping of `preprocess_input`: truncate the line at the first `#`. -/
def strip_comment (l : List Char) : List Char :=
  match l.findIdx? (fun c => c = '#') with
  | some i => l.take i
  | none => l

/-- One line of `yaml_parser::preprocess_input`: strip the comment, then trim
trailing whitespace (a whitespace-only line becomes empty; trimming an already
empty line is a no-op, matching the C++ `!line.empty()` guard). -/
def preprocess_line (l : List Char) : List Char :=
  ((strip_comment l).reverse.dropWhile isTrailWs).reverse

/-- `yaml_parser::preprocess_input` applied to a table of raw physical lines
(splitting the stream into lines via `std::getline` is taken as given). -/
def preprocess_input (raw : List (List Char)) : List (List Char) :=
  raw.map preprocess_line

/-- `yaml_parser::get_indent`: leading spaces count 1, tabs count 2. -/
def get_indent : List Char → Nat
  | [] => 0
  | c :: rest =>
    if c = ' ' then get_indent rest + 1
    else if c = '\t' then get_indent rest + 2
    else 0

/-- `yaml_parser::get_next_sub_indent`, expressed on the suffix of the line
table starting at `start_line` (the C++ only peeks forward).  The C++ `-1`
sentinel is `none`. -/
def get_next_sub_indent (rest : List (List Char)) (parent : Nat) : Option Nat :=
  match rest with
  | [] => none
  | l :: ls =>
    if l = [] then get_next_sub_indent ls parent
    else if parent < get_indent l then some (get_indent l) else none

/-- Abstraction of a C++ `double` produced by the scalar resolver: the special
values, or a finite value carried as the exact rational denoted by the parsed
literal (the rounding of `strtod` to the nearest binary64 is abstracted away;
no claim in scope distinguishes a decimal literal from its rounded double). -/
inductive FloatV where
  | finite (q : ℚ)
  | posInf
  | negInf
  | nan
deriving DecidableEq

/-- Modelled from the spec: the external JSON value type populated by the
engine (spec section 3) — a tagged union with ordered arrays and an ordered
mapping for objects, insertion order preserved and last write winning for a
duplicate key.  (The engine's own code only ever constructs values and writes
object keys; the container itself is the collaborating external component of
spec section 6.) -/
inductive Value where
  | null
  | bool (b : Bool)
  | int (n : ℤ)
  | float (x : FloatV)
  | str (s : List Char)
  | arr (elems : List Value)
  | obj (entries : List (List Char × Value))

/-- Errors thrown by the parser (`std::runtime_error` messages), carrying the
data interpolated into the message text; `fuelExhausted` is the artifact of
the explicit fuel and corresponds to no C++ behaviour. -/
inductive Err where
  | fuelExhausted
  | invalidJsonArraySyntax (s : List Char)
  | invalidJsonObjectSyntax (s : List Char)
  | mixedRootError
  | keyExpectedBlock (key : List Char) (line : Nat)
  | keyFailedBlock (key : List Char) (line : Nat)
  | seqExpectedBlock (line : Nat)
  | seqFailedBlock (line : Nat)
  | inconsistentSeqIndent (line : Nat)
deriving DecidableEq

/-- Modelled from the spec: writing `obj[key] = v` into the ordered object —
an existing key keeps its position and gets the new value, a new key is
appended (spec section 3: insertion order preserved, last write wins). -/
def setKey : List (List Char × Value) → List Char × Value → List (List Char × Value)
  | [], kv => [kv]
  | (k, v) :: rest, kv =>
    if k = kv.1 then (k, kv.2) :: rest else (k, v) :: setKey rest kv

/-- Lookup in the ordered object (first, hence unique, entry for a key). -/
def getKey : List (List Char × Value) → List Char → Option Value
  | [], _ => none
  | (k, v) :: rest, key => if k = key then some v else getKey rest key

/-- The whitespace skipped by `strtol`/`strtod` (`isspace` in the C locale). -/
def isWs6 (c : Char) : Bool :=
  c = ' ' || c = '\t' || c = nlChar || c = crChar || c = Char.ofNat 11 || c = Char.ofNat 12

/-- Numeric value of a digit or letter character (letters case-insensitively
valued 10..35, as `strtol` does), phrased on character codes: `0`-`9` are
48-57, `a`-`z` are 97-122, `A`-`Z` are 65-90. -/
def digitValue (c : Char) : Option Nat :=
  if 48 ≤ c.toNat ∧ c.toNat ≤ 57 then some (c.toNat - 48)
  else if 97 ≤ c.toNat ∧ c.toNat ≤ 122 then some (c.toNat - 97 + 10)
  else if 65 ≤ c.toNat ∧ c.toNat ≤ 90 then some (c.toNat - 65 + 10)
  else none

/-- Digit value of `c` if it is a valid digit in the given base. -/
def digitInBase (base : Nat) (c : Char) : Option Nat :=
  (digitValue c).bind (fun d => if d < base then some d else none)

/-- Value of a digit string in the given base. -/
def digitsVal (base : Nat) (ds : List Char) : Nat :=
  ds.foldl (fun a c => a * base + ((digitInBase base c).getD 0)) 0

/-- Splits an optional leading sign, returning (negative?, rest). -/
def splitSign (s : List Char) : Bool × List Char :=
  match s with
  | c :: rest =>
    if c = '-' then (true, rest) else if c = '+' then (false, rest) else (false, s)
  | [] => (false, [])

/-- Modelled from the spec: the C library `strtol` underlying `std::stoi` and
`std::stoll` (the conversion routine is external to the repository).  Skips
leading whitespace, takes an optional sign, consumes an optional `0x`/`0X`
prefix in base 16 when a hex digit follows, then the longest run of digits
valid in the base; `none` when no digit was consumed (`invalid_argument`).
The value is returned unbounded; the `stoi`/`stoll` wrappers apply the range
check (`out_of_range`). -/
def strtolM (s : List Char) (base : Nat) : Option Int :=
  let s1 := s.dropWhile isWs6
  let p := splitSign s1
  let s3 : List Char :=
    if base = 16 then
      match p.2 with
      | c0 :: c1 :: c2 :: rest =>
        if c0 = '0' ∧ (c1 = 'x' ∨ c1 = 'X') ∧ (digitInBase 16 c2).isSome
        then c2 :: rest else p.2
      | _ => p.2
    else p.2
  let ds := s3.takeWhile (fun c => (digitInBase base c).isSome)
  if ds = [] then none
  else some (if p.1 then -(digitsVal base ds : Int) else (digitsVal base ds : Int))

/-- `std::stoi`: `strtol` with the 32-bit signed range check. -/
def stoiM (s : List Char) (base : Nat) : Option Int :=
  (strtolM s base).bind
    (fun v => if -(2 ^ 31) ≤ v ∧ v ≤ 2 ^ 31 - 1 then some v else none)

/-- `std::stoll`: base-10 `strtol` with the 64-bit signed range check. -/
def stollM (s : List Char) : Option Int :=
  (strtolM s 10).bind
    (fun v => if -(2 ^ 63) ≤ v ∧ v ≤ 2 ^ 63 - 1 then some v else none)

/-- Modelled from the spec: the C library `strtod` underlying `std::stod`
(external to the repository), on its decimal forms: optional whitespace and
sign, then `inf`/`infinity`/`nan` (case-insensitive) or a decimal mantissa
with optional fraction and exponent, longest valid prefix.  `none` when no
conversion is possible or the magnitude overflows the double range
(`out_of_range`).  The finite result is the exact rational of the literal;
hexadecimal floating literals are not modelled (no claim reaches them). -/
def strtodM (s : List Char) : Option FloatV :=
  let s1 := s.dropWhile isWs6
  let p := splitSign s1
  let low := p.2.map Char.toLower
  if low.take 3 = ['i', 'n', 'f'] then some (if p.1 then .negInf else .posInf)
  else if low.take 3 = ['n', 'a', 'n'] then some .nan
  else
    let ip := p.2.takeWhile (fun c => (digitInBase 10 c).isSome)
    let r1 := p.2.drop ip.length
    let fp : List Char :=
      match r1 with
      | c :: rest => if c = '.' then rest.takeWhile (fun d => (digitInBase 10 d).isSome) else []
      | [] => []
    let r2 : List Char :=
      match r1 with
      | c :: rest => if c = '.' then rest.drop fp.length else r1
      | [] => []
    if ip = [] ∧ fp = [] then none
    else
      let e : Int :=
        match r2 with
        | c :: rest =>
          if c = 'e' ∨ c = 'E' then
            let pe := splitSign rest
            let eds := pe.2.takeWhile (fun d => (digitInBase 10 d).isSome)
            if eds = [] then 0
            else if pe.1 then -(digitsVal 10 eds : Int) else (digitsVal 10 eds : Int)
          else 0
        | [] => 0
      let mant : ℚ := (digitsVal 10 (ip ++ fp) : ℚ) / (10 : ℚ) ^ fp.length
      let q : ℚ := (if p.1 then -mant else mant) * (10 : ℚ) ^ e
      if ((2 ^ 1024 : ℕ) : ℚ) ≤ |q| then none else some (.finite q)

/-- `yaml_parser::is_json_array`: trimmed, non-empty, `[`-first and `]`-last. -/
def is_json_array (s : List Char) : Bool :=
  let t := trimBoth s
  !t.isEmpty && t.head? == some '[' && t.getLast? == some ']'

/-- `yaml_parser::is_json_object`. -/
def is_json_object (s : List Char) : Bool :=
  let t := trimBoth s
  !t.isEmpty && t.head? == some obrace && t.getLast? == some cbrace

/-- `yaml_parser::starts_with_json_token`: first non-`" \t"` character is a
bracket or brace. -/
def starts_with_json_token (s : List Char) : Bool :=
  match s.dropWhile isSpaceTab with
  | [] => false
  | c :: _ => c == '[' || c == obrace

/-- The escape table of `parse_scalar` for quoted strings: recognized escapes
are decoded, any other escaped character is kept verbatim (backslash dropped). -/
def unescapeChar (c : Char) : Char :=
  if c = 'n' then nlChar
  else if c = 't' then '\t'
  else if c = 'r' then crChar
  else c

/-- The unescaping loop of `parse_scalar` for quoted strings (a trailing lone
backslash is kept, matching the `i + 1 < size` guard). -/
def unescape : List Char → List Char
  | [] => []
  | c :: rest =>
    if c = bSlash then
      match rest with
      | [] => [c]
      | d :: rest2 => unescapeChar d :: unescape rest2
    else c :: unescape rest

/-- The `null` keyword table of `parse_scalar`. -/
def isNullWord (v : List Char) : Bool :=
  v == lchars ("null") || v == lchars ("~") || v == lchars ("Null") || v == lchars ("NULL")

/-- The `true` keyword table of `parse_scalar`. -/
def isTrueWord (v : List Char) : Bool :=
  v == lchars ("true") || v == lchars ("True") || v == lchars ("TRUE")

/-- The `false` keyword table of `parse_scalar`. -/
def isFalseWord (v : List Char) : Bool :=
  v == lchars ("false") || v == lchars ("False") || v == lchars ("FALSE")

/-- The `+infinity` keyword table of `parse_scalar`. -/
def isPosInfWord (v : List Char) : Bool :=
  v == lchars (".inf") || v == lchars (".Inf") || v == lchars (".INF") || v == lchars ("+.inf")

/-- The `-infinity` keyword table of `parse_scalar`. -/
def isNegInfWord (v : List Char) : Bool :=
  v == lchars ("-.inf") || v == lchars ("-.Inf") || v == lchars ("-.INF")

/-- The `NaN` keyword table of `parse_scalar`. -/
def isNanWord (v : List Char) : Bool :=
  v == lchars (".nan") || v == lchars (".NaN") || v == lchars (".NAN")

/-- The quoted-string test of `parse_scalar`: non-empty with matching first
and last single or double quote. -/
def isQuotedVal (v : List Char) : Bool :=
  !v.isEmpty &&
    ((v.head? == some dQuote && v.getLast? == some dQuote) ||
     (v.head? == some sQuote && v.getLast? == some sQuote))

/-- The plain-number tail of `parse_scalar`'s numeric section (after the base
prefix check): float when a `.`/`e`/`E` occurs, `stoll` for a signed or plain
integer; `val[0]` on an empty `std::string` reads the terminating `'\0'`,
which is neither sign, so the empty case falls to `stoll` as in the C++. -/
def numeric_plain (val : List Char) : Option Value :=
  if '.' ∈ val ∨ 'e' ∈ val ∨ 'E' ∈ val then (strtodM val).map Value.float
  else
    match val.head? with
    | some c =>
      if c = '-' ∨ c = '+' then
        if '.' ∈ val ∨ 'e' ∈ val ∨ 'E' ∈ val then (strtodM val).map Value.float
        else (stollM val).map Value.int
      else (stollM val).map Value.int
    | none => (stollM val).map Value.int

/-- The numeric section of `parse_scalar` (the `try` block): base-prefixed
integers when the token has more than 2 characters and starts with `0`
(hex keeps the whole token for `stoi`, octal and binary drop the prefix),
otherwise the plain-number tail.  `none` models a caught exception. -/
def numeric_value (val : List Char) : Option Value :=
  if 2 < val.length ∧ val.head? = some '0' then
    match getElem? val 1 with
    | some c =>
      if c = 'x' ∨ c = 'X' then (stoiM val 16).map Value.int
      else if c = 'o' ∨ c = 'O' then (stoiM (val.drop 2) 8).map Value.int
      else if c = 'b' ∨ c = 'B' then (stoiM (val.drop 2) 2).map Value.int
      else numeric_plain val
    | none => numeric_plain val
  else numeric_plain val

/-- Whitespace accepted between JSON tokens by the external JSON reader. -/
def json_ws (c : Char) : Bool := c = ' ' || c = '\t' || c = nlChar || c = crChar

/-- Skip JSON whitespace. -/
def jskip (s : List Char) : List Char := s.dropWhile json_ws

/-- Four hex digits of a `\u` escape. -/
def hexQuad (s : List Char) : Option (Nat × List Char) :=
  match s with
  | a :: b :: c :: d :: rest =>
    match digitInBase 16 a, digitInBase 16 b, digitInBase 16 c, digitInBase 16 d with
    | some x, some y, some z, some w => some (((x * 16 + y) * 16 + z) * 16 + w, rest)
    | _, _, _, _ => none
  | _ => none

/-- Modelled from the spec: JSON string body (after the opening quote) of the
external JSON reader — strict escapes, surrogate pairs combined, unescaped
control characters rejected.  Fuel is the remaining length (each step consumes
at least one character). -/
def json_string_core (fuel : Nat) (s : List Char) : Option (List Char × List Char) :=
  match fuel with
  | 0 => none
  | fuel + 1 =>
    match s with
    | [] => none
    | c :: rest =>
      if c = dQuote then some ([], rest)
      else if c = bSlash then
        match rest with
        | [] => none
        | e :: rest2 =>
          if e = dQuote ∨ e = bSlash ∨ e = '/' then
            (json_string_core fuel rest2).map (fun p => (e :: p.1, p.2))
          else if e = 'b' then
            (json_string_core fuel rest2).map (fun p => (Char.ofNat 8 :: p.1, p.2))
          else if e = 'f' then
            (json_string_core fuel rest2).map (fun p => (Char.ofNat 12 :: p.1, p.2))
          else if e = 'n' then
            (json_string_core fuel rest2).map (fun p => (nlChar :: p.1, p.2))
          else if e = 'r' then
            (json_string_core fuel rest2).map (fun p => (crChar :: p.1, p.2))
          else if e = 't' then
            (json_string_core fuel rest2).map (fun p => ('\t' :: p.1, p.2))
          else if e = 'u' then
            (hexQuad rest2).bind (fun pn =>
              if 55296 ≤ pn.1 ∧ pn.1 ≤ 56319 then
                match pn.2 with
                | f1 :: f2 :: rest4 =>
                  if f1 = bSlash ∧ f2 = 'u' then
                    (hexQuad rest4).bind (fun pm =>
                      if 56320 ≤ pm.1 ∧ pm.1 ≤ 57343 then
                        (json_string_core fuel pm.2).map (fun p =>
                          (Char.ofNat (65536 + (pn.1 - 55296) * 1024 + (pm.1 - 56320)) :: p.1, p.2))
                      else none)
                  else none
                | _ => none
              else if 56320 ≤ pn.1 ∧ pn.1 ≤ 57343 then none
              else (json_string_core fuel pn.2).map (fun p => (Char.ofNat pn.1 :: p.1, p.2)))
          else none
      else if c.toNat < 32 then none
      else (json_string_core fuel rest).map (fun p => (c :: p.1, p.2))

/-- Modelled from the spec: JSON number of the external JSON reader — strict
grammar (no leading zeros), integers without fraction/exponent land in the
integer type when they fit 64 bits (signed, or unsigned for large positive
values), everything else becomes a double (carried as its exact rational). -/
def json_number (s : List Char) : Option (Value × List Char) :=
  let neg : Bool := s.head? == some '-'
  let s2 := if neg then s.drop 1 else s
  let ip := s2.takeWhile (fun c => (digitInBase 10 c).isSome)
  if ip = [] then none
  else if 1 < ip.length ∧ ip.head? = some '0' then none
  else
    let r1 := s2.drop ip.length
    let fp : List Char :=
      match r1 with
      | c :: rest => if c = '.' then rest.takeWhile (fun d => (digitInBase 10 d).isSome) else []
      | [] => []
    let hasFrac : Bool := r1.head? == some '.'
    if hasFrac ∧ fp = [] then none
    else
      let r2 := if hasFrac then r1.drop (fp.length + 1) else r1
      let hasExp : Bool := r2.head? == some 'e' || r2.head? == some 'E'
      let signLen : Nat :=
        match r2.drop 1 with
        | c :: _ => if c = '-' ∨ c = '+' then 1 else 0
        | [] => 0
      let eneg : Bool := (r2.drop 1).head? == some '-'
      let eds := (r2.drop (1 + signLen)).takeWhile (fun d => (digitInBase 10 d).isSome)
      if hasExp ∧ eds = [] then none
      else
        let rest : List Char := if hasExp then r2.drop (1 + signLen + eds.length) else r2
        if ¬ hasFrac ∧ ¬ hasExp then
          let n : Int := if neg then -(digitsVal 10 ip : Int) else (digitsVal 10 ip : Int)
          if -(2 ^ 63) ≤ n ∧ n < 2 ^ 64 then some (.int n, rest)
          else
            some (.float (.finite (n : ℚ)), rest)
        else
          let e : Int :=
            if hasExp then (if eneg then -(digitsVal 10 eds : Int) else (digitsVal 10 eds : Int))
            else 0
          let mant : ℚ := (digitsVal 10 (ip ++ fp) : ℚ) / (10 : ℚ) ^ fp.length
          let q : ℚ := (if neg then -mant else mant) * (10 : ℚ) ^ e
          some (.float (.finite q), rest)

mutual

/-- Modelled from the spec: a JSON value of the external JSON reader
(`json::parse` is the collaborating component of spec section 6; the engine
delegates literal validation to it). -/
def json_value (fuel : Nat) (s : List Char) : Option (Value × List Char) :=
  match fuel with
  | 0 => none
  | fuel + 1 =>
    match jskip s with
    | [] => none
    | c :: rest =>
      if c = 'n' then
        match rest with
        | 'u' :: 'l' :: 'l' :: r => some (.null, r)
        | _ => none
      else if c = 't' then
        match rest with
        | 'r' :: 'u' :: 'e' :: r => some (.bool true, r)
        | _ => none
      else if c = 'f' then
        match rest with
        | 'a' :: 'l' :: 's' :: 'e' :: r => some (.bool false, r)
        | _ => none
      else if c = dQuote then
        (json_string_core (rest.length + 1) rest).map (fun p => (.str p.1, p.2))
      else if c = '[' then json_array_tail fuel rest
      else if c = obrace then json_object_tail fuel rest
      else json_number (c :: rest)
termination_by structural fuel

/-- JSON array after the opening bracket. -/
def json_array_tail (fuel : Nat) (s : List Char) : Option (Value × List Char) :=
  match fuel with
  | 0 => none
  | fuel + 1 =>
    match jskip s with
    | ']' :: r => some (.arr [], r)
    | _ => json_elems fuel s []
termination_by structural fuel

/-- Comma-separated JSON array elements. -/
def json_elems (fuel : Nat) (s : List Char) (acc : List Value) : Option (Value × List Char) :=
  match fuel with
  | 0 => none
  | fuel + 1 =>
    (json_value fuel s).bind (fun pv =>
      match jskip pv.2 with
      | ',' :: r2 => json_elems fuel r2 (acc ++ [pv.1])
      | ']' :: r2 => some (.arr (acc ++ [pv.1]), r2)
      | _ => none)
termination_by structural fuel

/-- JSON object after the opening brace. -/
def json_object_tail (fuel : Nat) (s : List Char) : Option (Value × List Char) :=
  match fuel with
  | 0 => none
  | fuel + 1 =>
    match jskip s with
    | c :: r => if c = cbrace then some (.obj [], r) else json_members fuel s []
    | [] => none
termination_by structural fuel

/-- Comma-separated JSON object members (string key, colon, value). -/
def json_members (fuel : Nat) (s : List Char) (acc : List (List Char × Value)) :
    Option (Value × List Char) :=
  match fuel with
  | 0 => none
  | fuel + 1 =>
    match jskip s with
    | c :: rest =>
      if c = dQuote then
        (json_string_core (rest.length + 1) rest).bind (fun pk =>
          match jskip pk.2 with
          | ':' :: r2 =>
            (json_value fuel r2).bind (fun pv =>
              match jskip pv.2 with
              | ',' :: r5 => json_members fuel r5 (setKey acc (pk.1, pv.1))
              | c2 :: r5 =>
                if c2 = cbrace then some (.obj (setKey acc (pk.1, pv.1)), r5) else none
              | [] => none)
          | _ => none)
      else none
    | [] => none
termination_by structural fuel

end

/-- Modelled from the spec: `nlohmann::json::parse` — one JSON value, then
nothing but whitespace.  `none` is the reader's `parse_error`. -/
def json_parse (s : List Char) : Option Value :=
  (json_value (s.length + 1) s).bind (fun p => if jskip p.2 = [] then some p.1 else none)

/-- `yaml_parser::parse_scalar`: trim, JSON literal, quoted string, keyword
table, numeric conversion, degrade to string.  The thrown
`Invalid JSON array/object syntax` errors become `Except.error`. -/
def parse_scalar (value : List Char) : Except Err Value :=
  let val := trimBoth value
  if is_json_array val then
    match json_parse val with
    | some j => .ok j
    | none => .error (.invalidJsonArraySyntax val)
  else if is_json_object val then
    match json_parse val with
    | some j => .ok j
    | none => .error (.invalidJsonObjectSyntax val)
  else if isQuotedVal val then
    .ok (.str (unescape ((val.drop 1).dropLast)))
  else if isNullWord val then .ok .null
  else if isTrueWord val then .ok (.bool true)
  else if isFalseWord val then .ok (.bool false)
  else if isPosInfWord val then .ok (.float .posInf)
  else if isNegInfWord val then .ok (.float .negInf)
  else if isNanWord val then .ok (.float .nan)
  else
    match numeric_value val with
    | some v => .ok v
    | none => .ok (.str val)

/-- Bracket/brace/string state of `try_collect_json_block`'s character scan. -/
structure ScanSt where
  curly : Int
  square : Int
  inString : Bool
  quoteChar : Char
  escape : Bool

/-- One character of `try_collect_json_block`'s balance scan: quoted spans are
skipped (with backslash escapes), braces and brackets are counted outside. -/
def scan_char (st : ScanSt) (c : Char) : ScanSt :=
  if st.inString then
    if st.escape then { st with escape := false }
    else if c = bSlash then { st with escape := true }
    else if c = st.quoteChar then { st with inString := false }
    else st
  else
    if c = dQuote ∨ c = sQuote then { st with inString := true, quoteChar := c }
    else if c = obrace then { st with curly := st.curly + 1 }
    else if c = cbrace then { st with curly := st.curly - 1 }
    else if c = '[' then { st with square := st.square + 1 }
    else if c = ']' then { st with square := st.square - 1 }
    else st

/-- Scan of one line's content. -/
def scan_line (st : ScanSt) (content : List Char) : ScanSt :=
  content.foldl scan_char st

/-- The loop of `yaml_parser::try_collect_json_block`, walking the suffix of
the line table from index `i`; `saved` is the entry cursor restored on every
failure exit.  Returns the new `current_line` and the collected text on
success. -/
def try_collect_aux (ind : Nat) (saved : Nat) :
    List (List Char) → Nat → Bool → ScanSt → List Char → Nat × Option (List Char)
  | [], _, _, _, _ => (saved, none)
  | raw :: rest, i, started, st, buf =>
    if started = false ∧ raw = [] then try_collect_aux ind saved rest (i + 1) started st buf
    else
      let indent := get_indent raw
      if started = false then
        if indent ≠ ind then (saved, none)
        else
          match (raw.drop indent).dropWhile isSpaceTab with
          | [] => try_collect_aux ind saved rest (i + 1) false st buf
          | c :: _ =>
            if c = obrace ∨ c = '[' then
              let content := raw.drop indent
              let buf2 := if buf = [] then content else buf ++ nlChar :: content
              let st2 := scan_line st content
              if st2.curly ≤ 0 ∧ st2.square ≤ 0 then (i + 1, some buf2)
              else try_collect_aux ind saved rest (i + 1) true st2 buf2
            else (saved, none)
      else
        if indent < ind then (saved, none)
        else
          let content := raw.drop indent
          let buf2 := if buf = [] then content else buf ++ nlChar :: content
          let st2 := scan_line st content
          if st2.curly ≤ 0 ∧ st2.square ≤ 0 then (i + 1, some buf2)
          else try_collect_aux ind saved rest (i + 1) true st2 buf2

/-- `yaml_parser::try_collect_json_block`: attempts to collect a balanced
JSON block starting at the cursor; the pair is the resulting `current_line`
(restored to the entry value on failure) and the collected text on success. -/
def try_collect_json_block (L : List (List Char)) (cur : Nat) (ind : Nat) :
    Nat × Option (List Char) :=
  try_collect_aux ind cur (L.drop cur) cur false ⟨0, 0, false, Char.ofNat 0, false⟩ []

/-- Position of the first occurrence of the two-character substring `" -"`
(models `std::string::find(" -")`). -/
def findDashSplit : List Char → Option Nat
  | [] => none
  | c1 :: rest =>
    match rest with
    | c2 :: _ =>
      if c1 = ' ' ∧ c2 = '-' then some 0 else (findDashSplit rest).map (· + 1)
    | [] => none

/-- The inline multi-dash loop of `parse_sequence`: splits the one-line
nested sequence on `" -"` boundaries and scalar-resolves each non-empty
segment.  Every iteration strictly shortens `remaining`, so the fuel
supplied by the caller (`remaining.length + 1`) is never exhausted. -/
def multi_dash_items (fuel : Nat) (remaining : List Char) (acc : List Value) :
    Except Err (List Value) :=
  match fuel with
  | 0 => .error .fuelExhausted
  | fuel + 1 =>
    match remaining with
    | [] => .ok acc
    | c :: rest =>
      if c ≠ '-' then .ok acc
      else
        match findDashSplit (trimLeading rest) with
        | some nd =>
          (if (trimLeading rest).take nd = [] then Except.ok acc
           else (parse_scalar ((trimLeading rest).take nd)).map (fun v => acc ++ [v])).bind
            (fun acc2 => multi_dash_items fuel (trimLeading ((trimLeading rest).drop (nd + 1))) acc2)
        | none =>
          if trimLeading rest = [] then .ok acc
          else (parse_scalar (trimLeading rest)).map (fun v => acc ++ [v])

mutual

/-- `yaml_parser::parse_value`: skip blanks and deeper lines, return null on a
shallower line, attempt the embedded-JSON block at the matching indentation
(restoring the cursor and falling through to the structural dispatch on
failure), and otherwise dispatch on dash/colon/scalar. -/
def parse_value (fuel : Nat) (L : List (List Char)) (cur : Nat) (ind : Nat) :
    Except Err (Value × Nat) :=
  match fuel with
  | 0 => .error .fuelExhausted
  | fuel + 1 =>
    match getElem? L cur with
    | none => .ok (.null, cur)
    | some line =>
      if line = [] then parse_value fuel L (cur + 1) ind
      else
        let li := get_indent line
        if li < ind then .ok (.null, cur)
        else if li = ind then
          if starts_with_json_token (line.drop li) then
            match try_collect_json_block L cur ind with
            | (cur2, some text) =>
              match json_parse text with
              | some v => .ok (v, cur2)
              | none =>
                if getElem? line li = some '-' then
                  (parse_sequence fuel L ind cur []).map (fun p => (.arr p.1, p.2))
                else if (line.findIdx? (fun c => c = ':')).isSome then
                  (parse_mapping fuel L ind cur []).map (fun p => (.obj p.1, p.2))
                else (parse_scalar (line.drop li)).map (fun v => (v, cur + 1))
            | (cur2, none) =>
              if getElem? line li = some '-' then
                (parse_sequence fuel L ind cur2 []).map (fun p => (.arr p.1, p.2))
              else if (line.findIdx? (fun c => c = ':')).isSome then
                (parse_mapping fuel L ind cur2 []).map (fun p => (.obj p.1, p.2))
              else (parse_scalar (line.drop li)).map (fun v => (v, cur2 + 1))
          else
            if getElem? line li = some '-' then
              (parse_sequence fuel L ind cur []).map (fun p => (.arr p.1, p.2))
            else if (line.findIdx? (fun c => c = ':')).isSome then
              (parse_mapping fuel L ind cur []).map (fun p => (.obj p.1, p.2))
            else (parse_scalar (line.drop li)).map (fun v => (v, cur + 1))
        else parse_value fuel L (cur + 1) ind
termination_by structural fuel

/-- `yaml_parser::parse_sequence`: consume dash lines at exactly the expected
indentation, handling nested blocks, inline multi-dash sequences, inline
mappings and plain scalars. -/
def parse_sequence (fuel : Nat) (L : List (List Char)) (ind : Nat) (cur : Nat)
    (acc : List Value) : Except Err (List Value × Nat) :=
  match fuel with
  | 0 => .error .fuelExhausted
  | fuel + 1 =>
    match getElem? L cur with
    | none => .ok (acc, cur)
    | some line =>
      if line = [] then parse_sequence fuel L ind (cur + 1) acc
      else
        let li := get_indent line
        if li < ind then .ok (acc, cur)
        else if li ≠ ind then .ok (acc, cur)
        else if getElem? line li ≠ some '-' then .ok (acc, cur)
        else
          let value := trimLeading (line.drop (li + 1))
          if value = [] then
            match get_next_sub_indent (L.drop (cur + 1)) ind with
            | none => .error (.seqExpectedBlock ((cur + 1) - 1))
            | some si =>
              (parse_value fuel L (cur + 1) si).bind (fun pv =>
                match pv.1 with
                | .null => .error (.seqFailedBlock (pv.2 - 1))
                | v => parse_sequence fuel L ind pv.2 (acc ++ [v]))
          else if value.head? = some '-' then
            (multi_dash_items (value.length + 1) value []).bind (fun nested =>
              (cont_seq fuel L ind (cur + 1) none nested).bind (fun pn =>
                parse_sequence fuel L ind pn.2 (acc ++ [.arr pn.1])))
          else if (value.findIdx? (fun c => c = ':')).isSome then
            let cp := (value.findIdx? (fun c => c = ':')).getD 0
            let key := trimTrailing (value.take cp)
            let v0 := trimLeading (value.drop (cp + 1))
            (if v0 = [] then
              match get_next_sub_indent (L.drop (cur + 1)) ind with
              | none => Except.error (.keyExpectedBlock key ((cur + 1) - 1))
              | some si =>
                (parse_value fuel L (cur + 1) si).bind (fun pv =>
                  match pv.1 with
                  | .null => Except.error (.keyFailedBlock key (pv.2 - 1))
                  | v => Except.ok ([(key, v)], pv.2))
            else (parse_scalar v0).map (fun v => ([(key, v)], cur + 1))).bind (fun p1 =>
              (cont_map fuel L ind p1.2 none p1.1).bind (fun p2 =>
                parse_sequence fuel L ind p2.2 (acc ++ [.obj p2.1])))
          else
            (parse_scalar value).bind (fun v =>
              parse_sequence fuel L ind (cur + 1) (acc ++ [v]))
termination_by structural fuel

/-- The continuation-line loop of `parse_sequence`'s inline multi-dash
branch: deeper dash lines at one consistent indentation are folded into the
nested array; an inconsistent deeper dash line is a hard error. -/
def cont_seq (fuel : Nat) (L : List (List Char)) (ind : Nat) (cur : Nat)
    (si : Option Nat) (acc : List Value) : Except Err (List Value × Nat) :=
  match fuel with
  | 0 => .error .fuelExhausted
  | fuel + 1 =>
    match getElem? L cur with
    | none => .ok (acc, cur)
    | some line =>
      if line = [] then cont_seq fuel L ind (cur + 1) si acc
      else
        let ni := get_indent line
        if ni ≤ ind then .ok (acc, cur)
        else if getElem? line ni = some '-' then
          if si.getD ni ≠ ni then .error (.inconsistentSeqIndent cur)
          else
            (parse_scalar (trimLeading (line.drop (ni + 1)))).bind (fun v =>
              cont_seq fuel L ind (cur + 1) (some ni) (acc ++ [v]))
        else .ok (acc, cur)
termination_by structural fuel

/-- The additional-key loop of `parse_sequence`'s inline mapping branch:
deeper `key: value` lines at one consistent indentation are merged into the
object; an indentation shift silently terminates the block. -/
def cont_map (fuel : Nat) (L : List (List Char)) (ind : Nat) (cur : Nat)
    (ki : Option Nat) (obj : List (List Char × Value)) :
    Except Err (List (List Char × Value) × Nat) :=
  match fuel with
  | 0 => .error .fuelExhausted
  | fuel + 1 =>
    match getElem? L cur with
    | none => .ok (obj, cur)
    | some line =>
      if line = [] then cont_map fuel L ind (cur + 1) ki obj
      else
        let ni := get_indent line
        if ni ≤ ind then .ok (obj, cur)
        else
          match line.findIdx? (fun c => c = ':') with
          | none => .ok (obj, cur)
          | some ncp =>
            if ki.getD ni ≠ ni then .ok (obj, cur)
            else
              let key2 := trimTrailing ((line.drop ni).take (ncp - ni))
              let val2 := trimLeading (line.drop (ncp + 1))
              if val2 = [] then
                match get_next_sub_indent (L.drop (cur + 1)) ni with
                | none => .error (.keyExpectedBlock key2 ((cur + 1) - 1))
                | some si2 =>
                  (parse_value fuel L (cur + 1) si2).bind (fun pv =>
                    match pv.1 with
                    | .null => .error (.keyFailedBlock key2 (pv.2 - 1))
                    | v => cont_map fuel L ind pv.2 (some ni) (setKey obj (key2, v)))
              else
                (parse_scalar val2).bind (fun v =>
                  cont_map fuel L ind (cur + 1) (some ni) (setKey obj (key2, v)))
termination_by structural fuel

/-- `yaml_parser::parse_mapping`: consume `key: value` lines at exactly the
expected indentation; an empty inline value requires a nested block. -/
def parse_mapping (fuel : Nat) (L : List (List Char)) (ind : Nat) (cur : Nat)
    (obj : List (List Char × Value)) :
    Except Err (List (List Char × Value) × Nat) :=
  match fuel with
  | 0 => .error .fuelExhausted
  | fuel + 1 =>
    match getElem? L cur with
    | none => .ok (obj, cur)
    | some line =>
      if line = [] then parse_mapping fuel L ind (cur + 1) obj
      else
        let li := get_indent line
        if li < ind then .ok (obj, cur)
        else if li ≠ ind then .ok (obj, cur)
        else
          match line.findIdx? (fun c => c = ':') with
          | none => .ok (obj, cur)
          | some cp =>
            let key := trimTrailing ((line.drop li).take (cp - li))
            let value := trimLeading (line.drop (cp + 1))
            if value = [] then
              match get_next_sub_indent (L.drop (cur + 1)) ind with
              | none => .error (.keyExpectedBlock key ((cur + 1) - 1))
              | some si =>
                (parse_value fuel L (cur + 1) si).bind (fun pv =>
                  match pv.1 with
                  | .null => .error (.keyFailedBlock key (pv.2 - 1))
                  | v => parse_mapping fuel L ind pv.2 (setKey obj (key, v)))
            else
              (parse_scalar value).bind (fun v =>
                parse_mapping fuel L ind (cur + 1) (setKey obj (key, v)))
termination_by structural fuel

/-- The loop of `yaml_parser::parse`: a column-0 dash line makes the whole
document a root sequence when nothing was collected yet and is a hard error
otherwise; a line with a colon adds a root mapping entry; any other line is
skipped. -/
def parse_top (fuel : Nat) (L : List (List Char)) (cur : Nat)
    (root : List (List Char × Value)) : Except Err Value :=
  match fuel with
  | 0 => .error .fuelExhausted
  | fuel + 1 =>
    match getElem? L cur with
    | none => .ok (.obj root)
    | some line =>
      if line = [] then parse_top fuel L (cur + 1) root
      else
        let li := get_indent line
        if line.head? = some '-' then
          if root.isEmpty then (parse_sequence fuel L 0 cur []).map (fun p => .arr p.1)
          else .error .mixedRootError
        else
          match line.findIdx? (fun c => c = ':') with
          | none => parse_top fuel L (cur + 1) root
          | some cp =>
            let key := trimTrailing ((line.drop li).take (cp - li))
            let value := trimLeading (line.drop (cp + 1))
            if value = [] then
              match get_next_sub_indent (L.drop (cur + 1)) li with
              | none => .error (.keyExpectedBlock key ((cur + 1) - 1))
              | some si =>
                (parse_value fuel L (cur + 1) si).bind (fun pv =>
                  match pv.1 with
                  | .null => .error (.keyFailedBlock key (pv.2 - 1))
                  | v => parse_top fuel L pv.2 (setKey root (key, v)))
            else
              (parse_scalar value).bind (fun v =>
                parse_top fuel L (cur + 1) (setKey root (key, v)))
termination_by structural fuel

end

/-- The structural dispatch tail of `parse_value` (the code after the
embedded-JSON attempt): sequence on a dash, mapping on a colon, else one
scalar line. -/
def parse_value_dispatch (fuel : Nat) (L : List (List Char)) (cur : Nat) (ind : Nat)
    (line : List Char) (li : Nat) : Except Err (Value × Nat) :=
  if getElem? line li = some '-' then
    (parse_sequence fuel L ind cur []).map (fun p => (.arr p.1, p.2))
  else if (line.findIdx? (fun c => c = ':')).isSome then
    (parse_mapping fuel L ind cur []).map (fun p => (.obj p.1, p.2))
  else (parse_scalar (line.drop li)).map (fun v => (v, cur + 1))

/-- Fuel supplied by the entry point: far more than any loop of the parser
can consume on a table of `n` lines. -/
def fuel_for (L : List (List Char)) : Nat :=
  (L.length + 2) * (L.length + 2) * (L.length + 2)

/-- `yaml_parser::parse`: the document-root loop starting with an empty
object root and cursor 0. -/
def parse (L : List (List Char)) : Except Err Value :=
  parse_top (fuel_for L) L 0 []

/-- `nlohmann::parse_yaml`: preprocess the raw physical lines, then parse. -/
def parse_yaml (raw : List (List Char)) : Except Err Value :=
  parse (preprocess_input raw)

/-- Key and resolved value of one root `key: value` line, as the root loop
extracts them: the text before the first colon (trailing-trimmed, for an
indentation-0 line) paired with the scalar resolution of the text after it
(a resolver error propagates).  The colon-less fallback is arbitrary; the
theorems only use this on lines that do carry a colon. -/
def extract_pair (l : List Char) : Except Err (List Char × Value) :=
  match l.findIdx? (fun c => c = ':') with
  | some cp =>
    (parse_scalar (trimLeading (l.drop (cp + 1)))).map
      (fun v => (trimTrailing (l.take cp), v))
  | none => .ok ([], .null)

/-- Key/value pairs of all lines in file order, resolver errors propagating
at the first offending line. -/
def root_pairs : List (List Char) → Except Err (List (List Char × Value))
  | [] => .ok []
  | l :: rest =>
    (extract_pair l).bind (fun p => (root_pairs rest).map (fun ps => p :: ps))

/-- File order of keys with a duplicate collapsed onto its first occurrence. -/
def key_order (ks : List (List Char)) : List (List Char) :=
  ks.foldl (fun acc k => if k ∈ acc then acc else acc ++ [k]) []

/-- Value of the last occurrence of a key in a pair list (`none` if absent). -/
def last_write (k : List Char) (ps : List (List Char × Value)) : Option Value :=
  ps.foldl (fun acc p => if p.1 = k then some p.2 else acc) none

/-- A `key: value` line at indentation 0 as claim C1 requires: non-blank,
not a dash line, indentation 0, carrying a colon, with a non-empty inline
value after it. -/
def c1_line (l : List Char) : Bool :=
  !l.isEmpty && !(l.head? == some '-') && get_indent l == 0 &&
    (match l.findIdx? (fun c => c = ':') with
     | some cp => !(trimLeading (l.drop (cp + 1))).isEmpty
     | none => false)

/-- A line the root loop of `parse` skips without effect: blank, or neither
a column-0 dash line nor a colon-bearing line. -/
def skippable_line (l : List Char) : Bool :=
  l.isEmpty || (!(l.head? == some '-') && (l.findIdx? (fun c => c = ':')).isNone)

/-- Root results are never bare scalars or null: an error, or an array or
object value. -/
def arr_or_obj (r : Except Err Value) : Prop :=
  match r with
  | .error _ => True
  | .ok (.arr _) => True
  | .ok (.obj _) => True
  | _ => False

/-!
Theorems.  The lemmas below first establish reusable stepping facts about the
embedded parser (one root-loop step per shape of the current line, cursor
restoration of the JSON-block collector, and the algebra of the ordered
object), then settle the claims.
-/

/-- Root loop step on a blank line: skip. -/
theorem parse_top_blank (fuel : Nat) (L : List (List Char)) (cur : Nat)
    (root : List (List Char × Value)) (h : getElem? L cur = some []) :
    parse_top (fuel + 1) L cur root = parse_top fuel L (cur + 1) root := by
  simp [parse_top, h]

/-- Root loop step on a non-blank line with neither a leading dash nor a
colon: skip. -/
theorem parse_top_skip (fuel : Nat) (L : List (List Char)) (cur : Nat)
    (root : List (List Char × Value)) (l : List Char) (h : getElem? L cur = some l)
    (hne : l ≠ []) (hd : l.head? ≠ some '-')
    (hc : l.findIdx? (fun c => c = ':') = none) :
    parse_top (fuel + 1) L cur root = parse_top fuel L (cur + 1) root := by
  simp [parse_top, h, hne, hd, hc]

/-- Root loop step on a `key: value` line with a non-empty inline value:
resolve the scalar and write the key. -/
theorem parse_top_kv (fuel : Nat) (L : List (List Char)) (cur : Nat)
    (root : List (List Char × Value)) (l : List Char) (cp : Nat)
    (h : getElem? L cur = some l) (hne : l ≠ []) (hd : l.head? ≠ some '-')
    (hc : l.findIdx? (fun c => c = ':') = some cp)
    (hv : trimLeading (l.drop (cp + 1)) ≠ []) :
    parse_top (fuel + 1) L cur root =
      (parse_scalar (trimLeading (l.drop (cp + 1)))).bind (fun v =>
        parse_top fuel L (cur + 1)
          (setKey root (trimTrailing ((l.drop (get_indent l)).take (cp - get_indent l)), v))) := by
  simp [parse_top, h, hne, hd, hc, hv]

/-- Root loop step on a line whose first character is a dash: root sequence
if nothing was collected yet, otherwise the mixing error. -/
theorem parse_top_dash (fuel : Nat) (L : List (List Char)) (cur : Nat)
    (root : List (List Char × Value)) (l : List Char)
    (h : getElem? L cur = some l) (hd : l.head? = some '-') :
    parse_top (fuel + 1) L cur root =
      (if root.isEmpty then (parse_sequence fuel L 0 cur []).map (fun p => .arr p.1)
       else .error .mixedRootError) := by
  have hne : l ≠ [] := by intro hh; subst hh; simp at hd
  simp [parse_top, h, hne, hd]

/-- Root loop step on a `key:` line with an empty inline value and no deeper
block: the missing-block error, carrying the key line's own 0-based index. -/
theorem parse_top_kv_empty (fuel : Nat) (L : List (List Char)) (cur : Nat)
    (root : List (List Char × Value)) (l : List Char) (cp : Nat)
    (h : getElem? L cur = some l) (hne : l ≠ []) (hd : l.head? ≠ some '-')
    (hc : l.findIdx? (fun c => c = ':') = some cp)
    (hv : trimLeading (l.drop (cp + 1)) = [])
    (hs : get_next_sub_indent (L.drop (cur + 1)) (get_indent l) = none) :
    parse_top (fuel + 1) L cur root =
      .error (.keyExpectedBlock
        (trimTrailing ((l.drop (get_indent l)).take (cp - get_indent l))) cur) := by
  simp [parse_top, h, hne, hd, hc, hv, hs]

/-- Failure exits of `try_collect_json_block`'s loop always return the saved
entry cursor (the loop only commits the advanced cursor on success). -/
theorem try_collect_aux_none (ind saved : Nat) :
    ∀ (rest : List (List Char)) (i : Nat) (started : Bool) (st : ScanSt) (buf : List Char),
      (try_collect_aux ind saved rest i started st buf).2 = none →
      (try_collect_aux ind saved rest i started st buf).1 = saved := by
  intro rest
  induction rest with
  | nil => intro i started st buf _; simp [try_collect_aux]
  | cons raw rest ih =>
    intro i started st buf h
    by_cases h1 : started = false ∧ raw = []
    · simp only [try_collect_aux, if_pos h1] at h ⊢
      exact ih _ _ _ _ h
    · simp only [try_collect_aux, if_neg h1] at h ⊢
      by_cases h2 : started = false
      · simp only [if_pos h2] at h ⊢
        by_cases h3 : get_indent raw ≠ ind
        · simp only [if_pos h3] at h ⊢
        · simp only [if_neg h3] at h ⊢
          cases hm : (raw.drop (get_indent raw)).dropWhile isSpaceTab with
          | nil => simp only [hm] at h ⊢; exact ih _ _ _ _ h
          | cons c cs =>
            simp only [hm] at h ⊢
            by_cases h4 : c = obrace ∨ c = '['
            · simp only [if_pos h4] at h ⊢
              by_cases h5 : (scan_line st (raw.drop (get_indent raw))).curly ≤ 0 ∧
                  (scan_line st (raw.drop (get_indent raw))).square ≤ 0
              · simp only [if_pos h5] at h
                exact absurd h (by simp)
              · simp only [if_neg h5] at h ⊢
                exact ih _ _ _ _ h
            · simp only [if_neg h4] at h ⊢
      · simp only [if_neg h2] at h ⊢
        by_cases h3 : get_indent raw < ind
        · simp only [if_pos h3] at h ⊢
        · simp only [if_neg h3] at h ⊢
          by_cases h5 : (scan_line st (raw.drop (get_indent raw))).curly ≤ 0 ∧
              (scan_line st (raw.drop (get_indent raw))).square ≤ 0
          · simp only [if_pos h5] at h
            exact absurd h (by simp)
          · simp only [if_neg h5] at h ⊢
            exact ih _ _ _ _ h

/-- On failure, `try_collect_json_block` leaves the cursor exactly where it
was. -/
theorem try_collect_restores (L : List (List Char)) (cur ind : Nat)
    (h : (try_collect_json_block L cur ind).2 = none) :
    (try_collect_json_block L cur ind).1 = cur :=
  try_collect_aux_none ind cur _ _ _ _ _ h


/-- C5: whenever embedded-JSON detection fails — the collector returns no
text, or the collected text is rejected by the JSON reader — the cursor is
back at exactly its pre-attempt value and `parse_value` continues with the
structural dispatch at that cursor.  (In this state-passing embedding,
already-produced output cannot be mutated by construction: the speculative
attempt returns a value without touching any accumulator.) -/
theorem c5_backtrack_restores_cursor :
    (∀ (L : List (List Char)) (cur ind : Nat),
       (try_collect_json_block L cur ind).2 = none →
       (try_collect_json_block L cur ind).1 = cur) ∧
    (∀ (fuel : Nat) (L : List (List Char)) (cur ind : Nat) (line : List Char),
       getElem? L cur = some line → line ≠ [] → get_indent line = ind →
       starts_with_json_token (line.drop ind) = true →
       ((try_collect_json_block L cur ind).2 = none ∨
        (∃ text, (try_collect_json_block L cur ind).2 = some text ∧ json_parse text = none)) →
       parse_value (fuel + 1) L cur ind =
         parse_value_dispatch fuel L cur ind line ind) := by
  constructor
  · exact fun L cur ind h => try_collect_restores L cur ind h
  · intro fuel L cur ind line hget hne hind hjson hfail
    rcases hq : try_collect_json_block L cur ind with ⟨c0, r⟩
    cases r with
    | none =>
      have hc0 : c0 = cur := by
        have := try_collect_restores L cur ind (by rw [hq])
        rw [hq] at this
        exact this
      subst hc0
      simp only [parse_value, hget, if_neg hne, hind, lt_irrefl, if_false, if_pos rfl,
        hjson, if_true, hq]
      rfl
    | some text =>
      have hjp : json_parse text = none := by
        rcases hfail with hl | ⟨t, ht, hj⟩
        · rw [hq] at hl; exact absurd hl (by simp)
        · rw [hq] at ht; simp at ht; rw [← ht] at hj; exact hj
      simp only [parse_value, hget, if_neg hne, hind, lt_irrefl, if_false, if_pos rfl,
        hjson, if_true, hq, hjp]
      rfl

/-- Witness for C5 at the unterminated block `[1, 2`: detection fails, the
cursor stays at 0, and `parse_value` equals the structural dispatch. -/
theorem c5_backtrack_restores_cursor_witness :
    ((try_collect_json_block [lchars ("[1, 2")] 0 0).2 = none ∧
     (try_collect_json_block [lchars ("[1, 2")] 0 0).1 = 0) ∧
    (getElem? [lchars ("[1, 2")] 0 = some (lchars ("[1, 2")) ∧
     parse_value 4 [lchars ("[1, 2")] 0 0 =
       parse_value_dispatch 3 [lchars ("[1, 2")] 0 0 (lchars ("[1, 2")) 0) := by
  refine ⟨⟨by with_unfolding_all rfl, ?_⟩, by with_unfolding_all rfl, ?_⟩
  · exact c5_backtrack_restores_cursor.1 [lchars ("[1, 2")] 0 0 (by with_unfolding_all rfl)
  · exact c5_backtrack_restores_cursor.2 3 [lchars ("[1, 2")] 0 0 (lchars ("[1, 2"))
      (by with_unfolding_all rfl) (by decide) (by with_unfolding_all rfl)
      (by with_unfolding_all rfl)
      (Or.inl (by with_unfolding_all rfl))

/-- No `#` survives comment stripping. -/
theorem hash_not_mem_strip_comment (l : List Char) : '#' ∉ strip_comment l := by
  unfold strip_comment
  cases hf : l.findIdx? (fun c => c = '#') with
  | none =>
    intro hmem
    have h2 := List.findIdx?_eq_none_iff.mp hf '#' hmem
    simp at h2
  | some i =>
    intro hmem
    obtain ⟨hi, hpi, hmin⟩ := List.findIdx?_eq_some_iff_getElem.mp hf
    obtain ⟨n, hn, he⟩ := List.getElem_of_mem hmem
    have hn2 : n < i := by
      simp only [List.length_take] at hn
      omega
    rw [List.getElem_take] at he
    exact hmin n hn2 (by simp [he])

/-- Comment stripping leaves a hash-free line unchanged. -/
theorem strip_comment_eq_of_not_mem (l : List Char) (h : '#' ∉ l) :
    strip_comment l = l := by
  unfold strip_comment
  have : l.findIdx? (fun c => c = '#') = none := by
    rw [List.findIdx?_eq_none_iff]
    intro x hx
    rw [decide_eq_false_iff_not]
    exact fun hxe => h (hxe ▸ hx)
  rw [this]

/-- Membership survives trailing trimming. -/
theorem mem_of_mem_rtrim {x : Char} {l : List Char} {p : Char → Bool}
    (h : x ∈ (l.reverse.dropWhile p).reverse) : x ∈ l := by
  rw [List.mem_reverse] at h
  have := (List.dropWhile_sublist (l := l.reverse) (p := p)).subset h
  exact List.mem_reverse.mp this

/-- One preprocessed line is a fixed point of preprocessing. -/
theorem preprocess_line_idem (l : List Char) :
    preprocess_line (preprocess_line l) = preprocess_line l := by
  unfold preprocess_line
  rw [strip_comment_eq_of_not_mem _ (fun hmem =>
    hash_not_mem_strip_comment l (mem_of_mem_rtrim hmem))]
  rw [List.reverse_reverse, List.dropWhile_idempotent]

/-- C8: preprocessing is idempotent — re-preprocessing an already
comment-stripped, trailing-trimmed line table is a no-op. -/
theorem c8_preprocess_idempotent (raw : List (List Char)) :
    preprocess_input (preprocess_input raw) = preprocess_input raw := by
  unfold preprocess_input
  rw [List.map_map]
  exact List.map_congr_left (fun a _ => preprocess_line_idem a)

set_option maxRecDepth 4000 in
/-- C7: the scalar resolver's numeric literal table — hex, octal and binary
prefixes, decimal floats and signed integers — plus the boundary behaviour of
prefix detection: `0b` (too short) and `9o7` (not `0`-leading) take the plain
path (`0b` resolves to the integer 0 where prefix treatment would have
produced the string `"0b"`), and tokens shorter than 3 characters or not
starting with `0` never reach the base-prefix branch.  The float is the exact
rational of the literal `3.14`. -/
theorem c7_numeric_literal_equivalence :
    parse_scalar (lchars ("0xFF")) = .ok (.int 255) ∧
    parse_scalar (lchars ("0o777")) = .ok (.int 511) ∧
    parse_scalar (lchars ("0b1010")) = .ok (.int 10) ∧
    parse_scalar (lchars ("3.14")) = .ok (.float (.finite (157 / 50))) ∧
    parse_scalar (lchars ("-17")) = .ok (.int (-17)) ∧
    parse_scalar (lchars ("0b")) = .ok (.int 0) ∧
    parse_scalar (lchars ("9o7")) = .ok (.int 9) ∧
    (∀ val : List Char, val.length ≤ 2 ∨ val.head? ≠ some '0' →
      numeric_value val = numeric_plain val) := by
  refine ⟨by with_unfolding_all rfl, by with_unfolding_all rfl, by with_unfolding_all rfl,
    by with_unfolding_all rfl, by with_unfolding_all rfl, by with_unfolding_all rfl,
    by with_unfolding_all rfl, fun val h => ?_⟩
  have hneg : ¬ (2 < val.length ∧ val.head? = some '0') := by
    rcases h with h | h
    · exact fun hc => absurd hc.1 (by omega)
    · exact fun hc => h hc.2
  simp only [numeric_value, if_neg hneg]

/-- Witness for C7's universal conjunct at the two-character token `0b`. -/
theorem c7_numeric_literal_equivalence_witness :
    ((lchars ("0b")).length ≤ 2 ∨ (lchars ("0b")).head? ≠ some '0') ∧
    numeric_value (lchars ("0b")) = numeric_plain (lchars ("0b")) :=
  ⟨Or.inl (by decide),
   c7_numeric_literal_equivalence.2.2.2.2.2.2.2 (lchars ("0b")) (Or.inl (by decide))⟩

/-- C4: the block value `[1, 2, "three", true, null]` (embedded-JSON path)
and the block-YAML sequence of the same five items (structural path) parse to
exactly the same tree, the expected five-element array. -/
theorem c4_embedded_json_equivalence :
    parse ((["key:", "  [1, 2, \"three\", true, null]"]).map lchars) =
      parse ((["key:", "  - 1", "  - 2", "  - \"three\"", "  - true", "  - null"]).map lchars) ∧
    parse ((["key:", "  [1, 2, \"three\", true, null]"]).map lchars) =
      .ok (.obj [(lchars ("key"),
        .arr [.int 1, .int 2, .str (lchars ("three")), .bool true, .null])]) :=
  ⟨rfl, rfl⟩

/-- Counterexample to C2 as stated: a document beginning with a column-0
dash line and later containing a top-level `key: value` line does NOT raise
the root mixing error — `parse` returns the root sequence built from the
leading dash lines (the `return parse_sequence(0)` at the root exits before
the key line is ever examined). -/
theorem c2_counterexample :
    parse ((["- item1", "key: value"]).map lchars) =
      .ok (.arr [.str (lchars ("item1"))]) := rfl

/-- Counterexample to C3 as stated: for `key:` on the first file line
(1-based line 1) with no deeper block, the error carries 0 — the 0-based
index of the key line — not the 1-based line number 1. -/
theorem c3_counterexample :
    parse ((["key:", "next: 1"]).map lchars) =
      .error (.keyExpectedBlock (lchars ("key")) 0) ∧ (0 : Nat) ≠ 1 :=
  ⟨rfl, by decide⟩


/-- Root loop step on a `key:` line with an empty inline value and a deeper
block: recursive value parse, null-check, write the key. -/
theorem parse_top_kv_block (fuel : Nat) (L : List (List Char)) (cur : Nat)
    (root : List (List Char × Value)) (l : List Char) (cp si : Nat)
    (h : getElem? L cur = some l) (hne : l ≠ []) (hd : l.head? ≠ some '-')
    (hc : l.findIdx? (fun c => c = ':') = some cp)
    (hv : trimLeading (l.drop (cp + 1)) = [])
    (hs : get_next_sub_indent (L.drop (cur + 1)) (get_indent l) = some si) :
    parse_top (fuel + 1) L cur root =
      (parse_value fuel L (cur + 1) si).bind (fun pv =>
        match pv.1 with
        | .null => .error (.keyFailedBlock
            (trimTrailing ((l.drop (get_indent l)).take (cp - get_indent l))) (pv.2 - 1))
        | v => parse_top fuel L pv.2
            (setKey root (trimTrailing ((l.drop (get_indent l)).take (cp - get_indent l)), v))) := by
  simp [parse_top, h, hne, hd, hc, hv, hs]

/-- The root loop only ever produces an error, an array (root sequence), or
an object — never a bare scalar or null. -/
theorem parse_top_arr_or_obj (fuel : Nat) :
    ∀ (L : List (List Char)) (cur : Nat) (root : List (List Char × Value)),
      arr_or_obj (parse_top fuel L cur root) := by
  induction fuel with
  | zero => intro L cur root; simp [parse_top, arr_or_obj]
  | succ fuel ih =>
    intro L cur root
    cases hget : getElem? L cur with
    | none => simp [parse_top, hget, arr_or_obj]
    | some line =>
      by_cases hb : line = []
      · subst hb; rw [parse_top_blank fuel L cur root hget]; exact ih L (cur + 1) root
      · by_cases hd : line.head? = some '-'
        · rw [parse_top_dash fuel L cur root line hget hd]
          by_cases hre : root.isEmpty
          · rw [if_pos hre]
            cases hs : parse_sequence fuel L 0 cur [] with
            | error e => simp [Except.map, arr_or_obj]
            | ok p => simp [Except.map, arr_or_obj]
          · rw [if_neg hre]; simp [arr_or_obj]
        · cases hc : line.findIdx? (fun c => c = ':') with
          | none => rw [parse_top_skip fuel L cur root line hget hb hd hc]; exact ih L (cur + 1) root
          | some cp =>
            by_cases hv : trimLeading (line.drop (cp + 1)) = []
            · cases hs : get_next_sub_indent (L.drop (cur + 1)) (get_indent line) with
              | none =>
                rw [parse_top_kv_empty fuel L cur root line cp hget hb hd hc hv hs]
                simp [arr_or_obj]
              | some si =>
                rw [parse_top_kv_block fuel L cur root line cp si hget hb hd hc hv hs]
                cases hpv : parse_value fuel L (cur + 1) si with
                | error e => simp [Except.bind, arr_or_obj]
                | ok pv =>
                  simp only [Except.bind]
                  rcases pv with ⟨v1, c1⟩
                  cases v1 <;> first
                    | exact ih L c1 _
                    | simp [arr_or_obj]
            · rw [parse_top_kv fuel L cur root line cp hget hb hd hc hv]
              cases hps : parse_scalar (trimLeading (line.drop (cp + 1))) with
              | error e => simp [Except.bind, arr_or_obj]
              | ok v => simp only [Except.bind]; exact ih L (cur + 1) _

/-- A table of only skippable lines leaves the root object untouched. -/
theorem parse_top_skips_all (fuel : Nat) :
    ∀ (L : List (List Char)) (cur : Nat) (root : List (List Char × Value)),
      (∀ l ∈ L, skippable_line l = true) → L.length - cur < fuel →
      parse_top fuel L cur root = .ok (.obj root) := by
  induction fuel with
  | zero => intro L cur root _ h2; omega
  | succ fuel ih =>
    intro L cur root hall hlen
    cases hget : getElem? L cur with
    | none => simp [parse_top, hget]
    | some l =>
      have hcur : cur < L.length := by
        by_contra hle
        rw [List.getElem?_eq_none_iff.mpr (by omega)] at hget
        cases hget
      by_cases hb : l = []
      · subst hb
        rw [parse_top_blank fuel L cur root hget]
        exact ih L (cur + 1) root hall (by omega)
      · have hs := hall l (List.getElem?_mem hget)
        simp only [skippable_line, Bool.or_eq_true, List.isEmpty_eq_true, Bool.and_eq_true,
          Bool.not_eq_true', beq_eq_false_iff_ne, ne_eq, Option.isNone_iff_eq_none] at hs
        rcases hs with hs | ⟨hd, hc⟩
        · exact absurd hs hb
        · rw [parse_top_skip fuel L cur root l hget hb hd hc]
          exact ih L (cur + 1) root hall (by omega)


/-- The entry fuel strictly dominates the table length. -/
theorem fuel_for_gt (L : List (List Char)) : L.length < fuel_for L := by
  unfold fuel_for
  calc L.length < L.length + 2 := by omega
    _ ≤ (L.length + 2) * (L.length + 2) * (L.length + 2) :=
      Nat.le_mul_of_pos_left _ (by positivity)

/-- C9: parse never returns a bare scalar or null root — every result is an
error, an array, or an object; and an input whose non-blank lines have no
column-0 dash and no colon yields the empty object without error. -/
theorem c9_root_shape :
    (∀ L : List (List Char), arr_or_obj (parse L)) ∧
    (∀ L : List (List Char), (∀ l ∈ L, skippable_line l = true) →
       parse L = .ok (.obj [])) := by
  constructor
  · intro L; exact parse_top_arr_or_obj (fuel_for L) L 0 []
  · intro L h
    exact parse_top_skips_all (fuel_for L) L 0 [] h (by have := fuel_for_gt L; omega)

/-- C9: parse never returns a bare scalar or null root — every result is an
error, an array, or an object; and an input whose non-blank lines have no
column-0 dash and no colon yields the empty object without error. -/
theorem c9_root_shape_witness :
    (∀ l ∈ (["hello", "", "  - x"]).map lchars, skippable_line l = true) ∧
    parse ((["hello", "", "  - x"]).map lchars) = .ok (.obj []) :=
  ⟨by decide, c9_root_shape.2 _ (by decide)⟩


/-- Unfolding: writing into an empty object appends. -/
theorem setKey_nil (kv : List Char × Value) : setKey [] kv = [kv] := rfl

/-- Unfolding equation of `setKey` on a cons. -/
theorem setKey_cons (k : List Char) (v : Value) (rest : List (List Char × Value))
    (kv : List Char × Value) :
    setKey ((k, v) :: rest) kv =
      (if k = kv.1 then (k, kv.2) :: rest else (k, v) :: setKey rest kv) := rfl

/-- Unfolding: lookup in an empty object. -/
theorem getKey_nil (k : List Char) : getKey [] k = none := rfl

/-- Unfolding equation of `getKey` on a cons. -/
theorem getKey_cons (k1 : List Char) (v1 : Value) (rest : List (List Char × Value))
    (k : List Char) :
    getKey ((k1, v1) :: rest) k = (if k1 = k then some v1 else getKey rest k) := rfl


/-- A write keeps the key list unchanged for an existing key and appends a
new key at the end. -/
theorem keys_setKey (m : List (List Char × Value)) (kv : List Char × Value) :
    (setKey m kv).map Prod.fst =
      (if kv.1 ∈ m.map Prod.fst then m.map Prod.fst else m.map Prod.fst ++ [kv.1]) := by
  induction m with
  | nil => simp [setKey_nil]
  | cons p rest ih =>
    rcases p with ⟨k, v⟩
    by_cases hk : k = kv.1
    · rw [setKey_cons, if_pos hk]
      subst hk
      simp only [List.map_cons]
      rw [if_pos (by exact List.mem_cons_self _ _)]
    · rw [setKey_cons, if_neg hk]
      simp only [List.map_cons, ih]
      by_cases hmem : kv.1 ∈ rest.map Prod.fst
      · rw [if_pos hmem, if_pos (by simp [List.mem_cons, hmem])]
      · rw [if_neg hmem, if_neg ?hcond]
        case hcond =>
          simp only [List.mem_cons]
          push_neg
          exact ⟨fun h => hk h.symm, hmem⟩
        simp

/-- Lookup after a write: the written key reads back the new value, others
are untouched. -/
theorem getKey_setKey (m : List (List Char × Value)) (kv : List Char × Value) (k : List Char) :
    getKey (setKey m kv) k = (if kv.1 = k then some kv.2 else getKey m k) := by
  obtain ⟨kk, vv⟩ := kv
  induction m with
  | nil =>
    by_cases hk : kk = k
    · simp [setKey_nil, getKey_cons, getKey_nil, hk]
    · simp [setKey_nil, getKey_cons, getKey_nil, hk]
  | cons p rest ih =>
    rcases p with ⟨k1, v1⟩
    by_cases hk1 : k1 = kk
    · rw [setKey_cons, if_pos hk1]
      by_cases hk : k1 = k
      · have hkk : kk = k := hk1 ▸ hk
        simp [getKey_cons, hk, hkk]
      · have hkk : ¬ kk = k := fun h => hk (hk1.trans h)
        simp [getKey_cons, hk, hkk]
    · rw [setKey_cons, if_neg hk1]
      by_cases hk : k1 = k
      · have hkk : ¬ kk = k := fun h => hk1 (hk.trans h.symm)
        simp [getKey_cons, hk, hkk]
      · simp [getKey_cons, hk, ih]

/-- Keys of an object built by repeated writes: foldl of the keep-first
de-duplication over the written keys. -/
theorem keys_foldl_setKey :
    ∀ (ps : List (List Char × Value)) (m : List (List Char × Value)),
      ((ps.foldl setKey m).map Prod.fst) =
        (ps.map Prod.fst).foldl (fun acc k => if k ∈ acc then acc else acc ++ [k])
          (m.map Prod.fst) := by
  intro ps
  induction ps with
  | nil => intro m; simp
  | cons p rest ih =>
    intro m
    simp only [List.foldl_cons, List.map_cons, ih (setKey m p), keys_setKey]

/-- Lookup in an object built by repeated writes is the last write for that
key. -/
theorem getKey_foldl_setKey :
    ∀ (ps : List (List Char × Value)) (m : List (List Char × Value)) (k : List Char),
      getKey (ps.foldl setKey m) k =
        ps.foldl (fun acc p => if p.1 = k then some p.2 else acc) (getKey m k) := by
  intro ps
  induction ps with
  | nil => intro m k; simp
  | cons p rest ih =>
    intro m k
    simp only [List.foldl_cons, ih (setKey m p), getKey_setKey]


/-- On a table of only `key: value` lines at indentation 0, the root loop
folds the extracted pairs into the object with `setKey`, propagating any
resolver error. -/
theorem parse_top_c1_lines (fuel : Nat) :
    ∀ (L : List (List Char)) (cur : Nat) (root : List (List Char × Value)),
      (∀ l ∈ L, c1_line l = true) → L.length - cur < fuel →
      parse_top fuel L cur root =
        (root_pairs (L.drop cur)).map (fun ps => Value.obj (ps.foldl setKey root)) := by
  induction fuel with
  | zero => intro L cur root _ h2; omega
  | succ fuel ih =>
    intro L cur root hall hlen
    cases hget : getElem? L cur with
    | none =>
      have hle : L.length ≤ cur := List.getElem?_eq_none_iff.mp hget
      rw [List.drop_eq_nil_of_le hle]
      simp [parse_top, hget, root_pairs, Except.map]
    | some l =>
      have hcur : cur < L.length := by
        by_contra hle
        rw [List.getElem?_eq_none_iff.mpr (by omega)] at hget
        cases hget
      have hc1 := hall l (List.getElem?_mem hget)
      simp only [c1_line, Bool.and_eq_true, Bool.not_eq_true',
        beq_eq_false_iff_ne, ne_eq, beq_iff_eq] at hc1
      obtain ⟨⟨⟨hne0, hd⟩, hind⟩, hmatch⟩ := hc1
      have hne : l ≠ [] := List.isEmpty_eq_false.mp hne0
      cases hcp : l.findIdx? (fun c => c = ':') with
      | none => rw [hcp] at hmatch; simp at hmatch
      | some cp =>
        rw [hcp] at hmatch
        have hv : trimLeading (l.drop (cp + 1)) ≠ [] := by
          simp only [Bool.not_eq_true'] at hmatch
          exact List.isEmpty_eq_false.mp hmatch
        rw [parse_top_kv fuel L cur root l cp hget hne hd hcp hv]
        have hdrop : L.drop cur = l :: L.drop (cur + 1) := by
          rw [List.drop_eq_getElem_cons hcur]
          obtain ⟨h1, h2⟩ := List.getElem?_eq_some.mp hget
          rw [h2]
        rw [hdrop]
        simp only [root_pairs, extract_pair, hcp, hind, Nat.sub_zero, List.drop_zero]
        cases hps : parse_scalar (trimLeading (l.drop (cp + 1))) with
        | error e => simp [Except.bind, Except.map]
        | ok v =>
          simp only [Except.bind, Except.map]
          rw [ih L (cur + 1) (setKey root (trimTrailing (l.take cp), v)) hall (by omega)]
          cases hrp : root_pairs (L.drop (cur + 1)) with
          | error e => simp [Except.map]
          | ok ps => simp [Except.map, List.foldl_cons]


/-- C1: for an input of only `key: value` lines at indentation 0, `parse`
returns the object obtained by writing each line's key and scalar-resolved
value in file order (a resolver error propagates); keys appear in first-write
(file) order with duplicates collapsed, and every key reads back the value of
its last occurrence. -/
theorem c1_root_scalar_mapping (L : List (List Char))
    (hall : ∀ l ∈ L, c1_line l = true) :
    parse L = (root_pairs L).map (fun ps => Value.obj (ps.foldl setKey [])) ∧
    (∀ ps, root_pairs L = .ok ps →
      ((ps.foldl setKey []).map Prod.fst = key_order (ps.map Prod.fst) ∧
       ∀ k, getKey (ps.foldl setKey []) k = last_write k ps)) := by
  constructor
  · have h := parse_top_c1_lines (fuel_for L) L 0 [] hall (by have := fuel_for_gt L; omega)
    simpa [parse] using h
  · intro ps _
    constructor
    · rw [keys_foldl_setKey ps []]
      rfl
    · intro k
      rw [getKey_foldl_setKey ps [] k]
      rfl

/-- C1: for an input of only `key: value` lines at indentation 0, `parse`
returns the object obtained by writing each line's key and scalar-resolved
value in file order (a resolver error propagates); keys appear in first-write
(file) order with duplicates collapsed, and every key reads back the value of
its last occurrence. -/
theorem c1_root_scalar_mapping_witness :
    (∀ l ∈ (["b: 2", "a: 1", "b: 3"]).map lchars, c1_line l = true) ∧
    parse ((["b: 2", "a: 1", "b: 3"]).map lchars) =
      (root_pairs ((["b: 2", "a: 1", "b: 3"]).map lchars)).map
        (fun ps => Value.obj (ps.foldl setKey [])) :=
  ⟨by decide, (c1_root_scalar_mapping ((["b: 2", "a: 1", "b: 3"]).map lchars) (by decide)).1⟩


/-- The root loop walks over a run of blank lines, spending one fuel each. -/
theorem parse_top_blanks (b : Nat) :
    ∀ (fuel : Nat) (L : List (List Char)) (cur : Nat) (root : List (List Char × Value)),
      (∀ j, j < b → getElem? L (cur + j) = some []) →
      parse_top (fuel + b) L cur root = parse_top fuel L (cur + b) root := by
  induction b with
  | zero => intro fuel L cur root _; rfl
  | succ b ih =>
    intro fuel L cur root h
    have h0 : getElem? L cur = some [] := by simpa using h 0 (by omega)
    have step : parse_top (fuel + b + 1) L cur root = parse_top (fuel + b) L (cur + 1) root :=
      parse_top_blank (fuel + b) L cur root h0
    have hshift : ∀ j, j < b → getElem? L ((cur + 1) + j) = some [] := by
      intro j hj
      have := h (j + 1) (by omega)
      rwa [show cur + (j + 1) = (cur + 1) + j from by omega] at this
    calc parse_top (fuel + (b + 1)) L cur root
        = parse_top (fuel + b) L (cur + 1) root := step
      _ = parse_top fuel L ((cur + 1) + b) root := ih fuel L (cur + 1) root hshift
      _ = parse_top fuel L (cur + (b + 1)) root := by
          rw [show (cur + 1) + b = cur + (b + 1) from by omega]

/-- C2 (amended): the root mixing error fires for the reversed order — a
top-level `key: value` line (populating the root object) followed, possibly
after blank lines, by a line starting with a dash. -/
theorem c2_amended_root_mixing (kv d : List Char) (b : Nat) (tail : List (List Char)) (cp : Nat)
    (hd0 : kv.head? ≠ some '-')
    (hc : kv.findIdx? (fun c => c = ':') = some cp)
    (hv : trimLeading (kv.drop (cp + 1)) ≠ [])
    (hscal : ∃ w, parse_scalar (trimLeading (kv.drop (cp + 1))) = .ok w)
    (hdash : d.head? = some '-') :
    parse (kv :: (List.replicate b [] ++ d :: tail)) = .error .mixedRootError := by
  set L := kv :: (List.replicate b [] ++ d :: tail) with hL
  have hkvne : kv ≠ [] := by
    intro hh
    rw [hh] at hc
    simp [List.findIdx?_nil] at hc
  have hlen : L.length = b + 2 + tail.length := by simp [hL]; omega
  have hN : b + 3 ≤ fuel_for L := by
    have := fuel_for_gt L
    omega
  obtain ⟨m, hm, hm2⟩ : ∃ m, fuel_for L = (m + b) + 1 ∧ 2 ≤ m := ⟨fuel_for L - b - 1, by omega, by omega⟩
  have hget0 : getElem? L 0 = some kv := by rw [hL]; simp
  rcases hscal with ⟨w, hw⟩
  have step1 : parse_top (fuel_for L) L 0 [] =
      parse_top (m + b) L 1 (setKey [] (trimTrailing ((kv.drop (get_indent kv)).take (cp - get_indent kv)), w)) := by
    rw [hm, parse_top_kv (m + b) L 0 [] kv cp hget0 hkvne hd0 hc hv, hw]
    rfl
  have hblanks : ∀ j, j < b → getElem? L (1 + j) = some [] := by
    intro j hj
    show getElem? (kv :: (List.replicate b [] ++ d :: tail)) (1 + j) = some []
    rw [show (1 + j) = j + 1 from by omega]
    simp only [List.getElem?_cons_succ]
    rw [List.getElem?_append_left (by simpa using hj), List.getElem?_replicate, if_pos hj]
  obtain ⟨m1, hm1⟩ : ∃ m1, m = m1 + 1 := ⟨m - 1, by omega⟩
  have hgetd : getElem? L (1 + b) = some d := by
    show getElem? (kv :: (List.replicate b [] ++ d :: tail)) (1 + b) = some d
    rw [show (1 + b) = b + 1 from by omega]
    simp only [List.getElem?_cons_succ]
    rw [List.getElem?_append_right (by simp), List.length_replicate]
    simp
  rw [parse, step1, parse_top_blanks b m L 1 _ hblanks, hm1,
    parse_top_dash m1 L (1 + b) _ d hgetd hdash]
  rw [if_neg (by simp [setKey_nil])]

/-- Indentation of a line made of `a` spaces followed by anything. -/
theorem get_indent_replicate_space (a : Nat) (l : List Char) :
    get_indent (List.replicate a ' ' ++ l) = a + get_indent l := by
  induction a with
  | zero => simp
  | succ a ih => simp [List.replicate_succ, get_indent, ih]; omega

/-- A line starting with a non-whitespace character has indentation 0. -/
theorem get_indent_of_head_not_ws (l : List Char) (c : Char) (h : l.head? = some c)
    (h1 : c ≠ ' ') (h2 : c ≠ '\t') : get_indent l = 0 := by
  cases l with
  | nil => simp at h
  | cons a rest =>
    simp only [List.head?_cons, Option.some.injEq] at h
    subst h
    simp [get_indent, h1, h2]

/-- Searching past a prefix with no match shifts the found index. -/
theorem findIdx?_append_of_none {p : Char → Bool} {l₁ l₂ : List Char}
    (h : List.findIdx? p l₁ = none) :
    List.findIdx? p (l₁ ++ l₂) = (List.findIdx? p l₂).map (· + l₁.length) := by
  rw [List.findIdx?_append, h]
  rfl

/-- No sub-indent is found when the first non-blank line ahead is not
deeper than the parent. -/
theorem gnsi_none_of_shallow (r1 : List (List Char)) (f : List Char)
    (tail : List (List Char)) (k : Nat) (hb : ∀ l ∈ r1, l = []) (hf : f ≠ [])
    (hind : get_indent f ≤ k) :
    get_next_sub_indent (r1 ++ f :: tail) k = none := by
  induction r1 with
  | nil => simp [get_next_sub_indent, hf, Nat.not_lt.mpr hind]
  | cons l r1 ih =>
    have hl : l = [] := hb l (by simp)
    subst hl
    simp only [List.cons_append, get_next_sub_indent, if_pos rfl]
    exact ih (fun l hl => hb l (by simp [hl]))


/-- C3 (amended): a root `key:` line with empty inline value whose next
non-blank line is not deeper raises the missing-indented-block error, the
carried number being the key line's 0-based index (one less than its 1-based
line number). -/
theorem c3_amended_missing_block (b k : Nat) (key : List Char)
    (r1 : List (List Char)) (f : List Char) (tail : List (List Char))
    (hk1 : key ≠ [])
    (hh1 : key.head? ≠ some '-') (hh2 : key.head? ≠ some ' ') (hh3 : key.head? ≠ some '\t')
    (hnc : ':' ∉ key)
    (hb : ∀ l ∈ r1, l = [])
    (hf : f ≠ []) (hind : get_indent f ≤ k) :
    parse (List.replicate b [] ++ (List.replicate k ' ' ++ key ++ [':']) :: (r1 ++ f :: tail)) =
      .error (.keyExpectedBlock (trimTrailing key) b) := by
  obtain ⟨c0, key', hkey⟩ : ∃ c0 key', key = c0 :: key' := by
    cases key with
    | nil => exact absurd rfl hk1
    | cons a rest => exact ⟨a, rest, rfl⟩
  have hc0 : key.head? = some c0 := by rw [hkey]; rfl
  have hc0d : c0 ≠ '-' := fun h => hh1 (by rw [hc0, h])
  have hc0s : c0 ≠ ' ' := fun h => hh2 (by rw [hc0, h])
  have hc0t : c0 ≠ '\t' := fun h => hh3 (by rw [hc0, h])
  set kl := List.replicate k ' ' ++ key ++ [':'] with hkl
  set L := List.replicate b [] ++ kl :: (r1 ++ f :: tail) with hL
  -- basic facts about the key line
  have hklne : kl ≠ [] := by simp [hkl]
  have hklhead : kl.head? ≠ some '-' := by
    rw [hkl]
    cases k with
    | zero => simpa [hkey] using fun h => hc0d h
    | succ k => simp [List.replicate_succ]
  have hklind : get_indent kl = k := by
    rw [hkl, List.append_assoc, get_indent_replicate_space]
    rw [get_indent_of_head_not_ws (key ++ [':']) c0 (by rw [hkey]; rfl) hc0s hc0t]
    omega
  have hkeyfind : List.findIdx? (fun c => c = ':') key = none := by
    rw [List.findIdx?_eq_none_iff]
    intro x hx
    rw [decide_eq_false_iff_not]
    exact fun hxe => hnc (hxe ▸ hx)
  have hklfind : List.findIdx? (fun c => c = ':') kl = some (k + key.length) := by
    rw [hkl, List.append_assoc, findIdx?_append_of_none (by
      rw [List.findIdx?_eq_none_iff]
      intro x hx
      rw [decide_eq_false_iff_not]
      intro hxe
      rw [List.eq_of_mem_replicate hx] at hxe
      exact absurd hxe (by decide)),
      findIdx?_append_of_none hkeyfind]
    simp [List.findIdx?_cons]
    omega
  have hklget : getElem? L b = some kl := by
    rw [hL, List.getElem?_append_right (by simp), List.length_replicate]
    simp
  have hklval : trimLeading (kl.drop (k + key.length + 1)) = [] := by
    rw [hkl, show List.replicate k ' ' ++ key ++ [':'] =
      (List.replicate k ' ' ++ key) ++ [':'] from by simp [List.append_assoc],
      show k + key.length + 1 = (List.replicate k ' ' ++ key).length + 1 from by simp]
    rw [show ((List.replicate k ' ' ++ key) ++ [':']).drop ((List.replicate k ' ' ++ key).length + 1) =
      List.drop 1 [':'] from List.drop_append 1]
    rfl
  have hdropL : L.drop (b + 1) = r1 ++ f :: tail := by
    rw [hL, show b + 1 = (List.replicate b ([] : List Char)).length + 1 from by simp]
    rw [show (List.replicate b ([] : List Char) ++ kl :: (r1 ++ f :: tail)).drop
        ((List.replicate b ([] : List Char)).length + 1) =
      List.drop 1 (kl :: (r1 ++ f :: tail)) from List.drop_append 1]
    rfl
  have hgnsi : get_next_sub_indent (L.drop (b + 1)) (get_indent kl) = none := by
    rw [hdropL, hklind]
    exact gnsi_none_of_shallow r1 f tail k hb hf hind
  have hdropk : kl.drop k = key ++ [':'] := by
    rw [hkl, List.append_assoc]
    calc (List.replicate k ' ' ++ (key ++ [':'])).drop k
        = (List.replicate k ' ' ++ (key ++ [':'])).drop (List.replicate k ' ').length := by
          rw [List.length_replicate]
      _ = key ++ [':'] := List.drop_left _ _
  have hkeyext : trimTrailing ((kl.drop (get_indent kl)).take ((k + key.length) - get_indent kl)) =
      trimTrailing key := by
    rw [hklind, hdropk, show k + key.length - k = key.length from by omega,
      List.take_left]
  have hlen2 : b + 1 ≤ L.length := by
    simp only [hL, List.length_append, List.length_replicate, List.length_cons]
    omega
  have hN : b + 2 ≤ fuel_for L := by
    have := fuel_for_gt L
    omega
  obtain ⟨m, hm, hm1⟩ : ∃ m, fuel_for L = m + b ∧ 1 ≤ m := ⟨fuel_for L - b, by omega, by omega⟩
  have hblanks : ∀ j, j < b → getElem? L (0 + j) = some [] := by
    intro j hj
    rw [hL, Nat.zero_add, List.getElem?_append_left (by simpa using hj),
      List.getElem?_replicate, if_pos hj]
  obtain ⟨m1, hm12⟩ : ∃ m1, m = m1 + 1 := ⟨m - 1, by omega⟩
  rw [show parse L = parse_top (fuel_for L) L 0 [] from rfl, hm,
    parse_top_blanks b m L 0 [] hblanks, Nat.zero_add, hm12,
    parse_top_kv_empty m1 L b [] kl (k + key.length) hklget hklne hklhead hklfind hklval hgnsi,
    hkeyext]

/-- Witness for the amended C2 on `key: value`, one blank line, `- item`. -/
theorem c2_amended_root_mixing_witness :
    ((lchars ("key: value")).head? ≠ some '-' ∧
     (lchars ("key: value")).findIdx? (fun c => c = ':') = some 3 ∧
     trimLeading ((lchars ("key: value")).drop 4) ≠ [] ∧
     parse_scalar (trimLeading ((lchars ("key: value")).drop 4)) = .ok (.str (lchars ("value"))) ∧
     (lchars ("- item")).head? = some '-') ∧
    parse (lchars ("key: value") :: (List.replicate 1 [] ++ lchars ("- item") :: [])) =
      .error .mixedRootError := by
  refine ⟨⟨by decide, by with_unfolding_all rfl, by decide, by with_unfolding_all rfl,
    by decide⟩, ?_⟩
  exact c2_amended_root_mixing (lchars ("key: value")) (lchars ("- item")) 1 [] 3
    (by decide) (by with_unfolding_all rfl) (by decide)
    ⟨.str (lchars ("value")), by with_unfolding_all rfl⟩ (by decide)

/-- Witness for the amended C3: a blank line, then `  key:` (indent 2) at
index 1, a blank line, then `x: 1` at indentation 0. -/
theorem c3_amended_missing_block_witness :
    ((lchars ("key")) ≠ [] ∧ ':' ∉ lchars ("key") ∧ get_indent (lchars ("x: 1")) ≤ 2) ∧
    parse (List.replicate 1 [] ++
        (List.replicate 2 ' ' ++ lchars ("key") ++ [':']) :: ([[]] ++ lchars ("x: 1") :: [])) =
      .error (.keyExpectedBlock (trimTrailing (lchars ("key"))) 1) := by
  refine ⟨⟨by decide, by decide, by decide⟩, ?_⟩
  exact c3_amended_missing_block 1 2 (lchars ("key")) [[]] (lchars ("x: 1")) []
    (by decide) (by decide) (by decide) (by decide) (by decide)
    (by intro l hl; simpa using hl) (by decide) (by decide)


/-- Dropping past a replicated prefix. -/
theorem drop_replicate_append (k n : Nat) (c : Char) (l : List Char) :
    (List.replicate k c ++ l).drop (k + n) = l.drop n := by
  calc (List.replicate k c ++ l).drop (k + n)
      = (List.replicate k c ++ l).drop ((List.replicate k c).length + n) := by
        rw [List.length_replicate]
    _ = l.drop n := List.drop_append n

/-- The character right after a replicated prefix. -/
theorem getElem_replicate_append (k : Nat) (c : Char) (l : List Char) :
    getElem? (List.replicate k c ++ l) k = getElem? l 0 := by
  rw [List.getElem?_append_right (by simp), List.length_replicate, Nat.sub_self]

/-- Sequence loop stop on an indentation mismatch. -/
theorem parse_seq_stop (fuel : Nat) (L : List (List Char)) (ind cur : Nat)
    (acc : List Value) (line : List Char)
    (hget : getElem? L cur = some line) (hne : line ≠ [])
    (hne2 : get_indent line ≠ ind) :
    parse_sequence (fuel + 1) L ind cur acc = .ok (acc, cur) := by
  by_cases hlt : get_indent line < ind
  · simp [parse_sequence, hget, hne, hlt]
  · simp [parse_sequence, hget, hne, hlt, hne2]

/-- Sequence loop step on an inline multi-dash item: split the line, then
fold continuation lines. -/
theorem parse_seq_multidash (fuel : Nat) (L : List (List Char)) (ind cur : Nat)
    (acc : List Value) (line : List Char)
    (hget : getElem? L cur = some line) (hne : line ≠ [])
    (hli : get_indent line = ind) (hdash : getElem? line ind = some '-')
    (hval : trimLeading (line.drop (ind + 1)) ≠ [])
    (hvd : (trimLeading (line.drop (ind + 1))).head? = some '-') :
    parse_sequence (fuel + 1) L ind cur acc =
      (multi_dash_items ((trimLeading (line.drop (ind + 1))).length + 1)
          (trimLeading (line.drop (ind + 1))) []).bind (fun nested =>
        (cont_seq fuel L ind (cur + 1) none nested).bind (fun pn =>
          parse_sequence fuel L ind pn.2 (acc ++ [.arr pn.1]))) := by
  simp [parse_sequence, hget, hne, hli, hdash, hval, hvd]

/-- Sequence loop step on an inline mapping item with inline first value:
resolve it, then merge additional key lines. -/
theorem parse_seq_inline_map (fuel : Nat) (L : List (List Char)) (ind cur : Nat)
    (acc : List Value) (line : List Char) (cp : Nat)
    (hget : getElem? L cur = some line) (hne : line ≠ [])
    (hli : get_indent line = ind) (hdash : getElem? line ind = some '-')
    (hval : trimLeading (line.drop (ind + 1)) ≠ [])
    (hvnd : (trimLeading (line.drop (ind + 1))).head? ≠ some '-')
    (hc : (trimLeading (line.drop (ind + 1))).findIdx? (fun c => c = ':') = some cp)
    (hv0 : trimLeading ((trimLeading (line.drop (ind + 1))).drop (cp + 1)) ≠ []) :
    parse_sequence (fuel + 1) L ind cur acc =
      ((parse_scalar (trimLeading ((trimLeading (line.drop (ind + 1))).drop (cp + 1)))).map
          (fun v => (([(trimTrailing ((trimLeading (line.drop (ind + 1))).take cp), v)] :
            List (List Char × Value)), cur + 1))).bind (fun p1 =>
        (cont_map fuel L ind p1.2 none p1.1).bind (fun p2 =>
          parse_sequence fuel L ind p2.2 (acc ++ [.obj p2.1]))) := by
  simp [parse_sequence, hget, hne, hli, hdash, hval, hvnd, hc, hv0, setKey_nil]

/-- Continuation loop of the multi-dash branch: a deeper dash line at the
established (or first) indentation is folded in. -/
theorem cont_seq_take (fuel : Nat) (L : List (List Char)) (ind cur : Nat)
    (si : Option Nat) (acc : List Value) (line : List Char) (ni : Nat)
    (hget : getElem? L cur = some line) (hne : line ≠ [])
    (hni : get_indent line = ni) (hgt : ind < ni)
    (hdash : getElem? line ni = some '-') (hsi : si.getD ni = ni) :
    cont_seq (fuel + 1) L ind cur si acc =
      (parse_scalar (trimLeading (line.drop (ni + 1)))).bind (fun v =>
        cont_seq fuel L ind (cur + 1) (some ni) (acc ++ [v])) := by
  simp [cont_seq, hget, hne, hni, Nat.not_le.mpr hgt, hdash, hsi]

/-- Continuation loop of the multi-dash branch: a deeper dash line at a
different indentation than established is a hard error carrying the 0-based
index of the offending line. -/
theorem cont_seq_err (fuel : Nat) (L : List (List Char)) (ind cur : Nat)
    (s : Nat) (acc : List Value) (line : List Char) (ni : Nat)
    (hget : getElem? L cur = some line) (hne : line ≠ [])
    (hni : get_indent line = ni) (hgt : ind < ni)
    (hdash : getElem? line ni = some '-') (hne2 : s ≠ ni) :
    cont_seq (fuel + 1) L ind cur (some s) acc =
      .error (.inconsistentSeqIndent cur) := by
  simp [cont_seq, hget, hne, hni, Nat.not_le.mpr hgt, hdash, hne2]

/-- Additional-key loop of the inline mapping branch: a deeper key line at
the established (or first) indentation is merged. -/
theorem cont_map_entry (fuel : Nat) (L : List (List Char)) (ind cur : Nat)
    (ki : Option Nat) (obj : List (List Char × Value)) (line : List Char) (ni ncp : Nat)
    (hget : getElem? L cur = some line) (hne : line ≠ [])
    (hni : get_indent line = ni) (hgt : ind < ni)
    (hc : line.findIdx? (fun c => c = ':') = some ncp)
    (hki : ki.getD ni = ni)
    (hval : trimLeading (line.drop (ncp + 1)) ≠ []) :
    cont_map (fuel + 1) L ind cur ki obj =
      (parse_scalar (trimLeading (line.drop (ncp + 1)))).bind (fun v =>
        cont_map fuel L ind (cur + 1) (some ni)
          (setKey obj (trimTrailing ((line.drop ni).take (ncp - ni)), v))) := by
  simp [cont_map, hget, hne, hni, Nat.not_le.mpr hgt, hc, hki, hval]

/-- Additional-key loop of the inline mapping branch: a deeper key line at a
different indentation than established silently terminates the block. -/
theorem cont_map_break (fuel : Nat) (L : List (List Char)) (ind cur : Nat)
    (k0 : Nat) (obj : List (List Char × Value)) (line : List Char) (ni ncp : Nat)
    (hget : getElem? L cur = some line) (hne : line ≠ [])
    (hni : get_indent line = ni) (hgt : ind < ni)
    (hc : line.findIdx? (fun c => c = ':') = some ncp)
    (hne2 : k0 ≠ ni) :
    cont_map (fuel + 1) L ind cur (some k0) obj = .ok (obj, cur) := by
  simp [cont_map, hget, hne, hni, Nat.not_le.mpr hgt, hc, hne2]


/-- Dropping exactly the replicated prefix. -/
theorem drop_replicate_append_self (k : Nat) (c : Char) (l : List Char) :
    (List.replicate k c ++ l).drop k = l := by
  have h := drop_replicate_append k 0 c l
  simp only [Nat.add_zero, List.drop_zero] at h
  exact h

/-- Bind of a success. -/
theorem ebind_ok {α β : Type} (a : α) (f : α → Except Err β) :
    (Except.ok a : Except Err α).bind f = f a := rfl

/-- Bind of an error. -/
theorem ebind_err {α β : Type} (e : Err) (f : α → Except Err β) :
    (Except.error e : Except Err α).bind f = .error e := rfl

/-- Map of a success. -/
theorem emap_ok {α β : Type} (a : α) (f : α → β) :
    (Except.ok a : Except Err α).map f = .ok (f a) := rfl

/-- Map of an error. -/
theorem emap_err {α β : Type} (e : Err) (f : α → β) :
    (Except.error e : Except Err α).map f = .error e := rfl

/-- C6: continuation-indentation handling is asymmetric.  For any two
distinct positive indentations `a` and `b`: an inline multi-dash sequence
whose two continuation dash lines sit at `a` and then `b` raises the hard
inconsistent-indentation error, while an inline mapping whose two additional
key lines sit at `a` and then `b` silently terminates the block after the
first, dropping the second key and returning the merged object. -/
theorem c6_continuation_asymmetry (a b : Nat) (ha : 1 ≤ a) (hb : 1 ≤ b) (hab : a ≠ b) :
    parse [lchars ("- - 1"),
           List.replicate a ' ' ++ lchars ("- 2"),
           List.replicate b ' ' ++ lchars ("- 3")] =
      .error (.inconsistentSeqIndent 2) ∧
    parse [lchars ("- k: 1"),
           List.replicate a ' ' ++ lchars ("k1: 2"),
           List.replicate b ' ' ++ lchars ("k2: 3")] =
      .ok (.arr [.obj [(lchars ("k"), .int 1), (lchars ("k1"), .int 2)]]) := by
  constructor
  · set L : List (List Char) := [lchars ("- - 1"),
      List.replicate a ' ' ++ lchars ("- 2"),
      List.replicate b ' ' ++ lchars ("- 3")] with hL
    have hg0 : getElem? L 0 = some (lchars ("- - 1")) := rfl
    have hga : getElem? L (0 + 1) = some (List.replicate a ' ' ++ lchars ("- 2")) := rfl
    have hgb : getElem? L (0 + 1 + 1) = some (List.replicate b ' ' ++ lchars ("- 3")) := rfl
    have hlane : (List.replicate a ' ' ++ lchars ("- 2")) ≠ [] := by simp [lchars]
    have hlbne : (List.replicate b ' ' ++ lchars ("- 3")) ≠ [] := by simp [lchars]
    have hinda : get_indent (List.replicate a ' ' ++ lchars ("- 2")) = a := by
      rw [get_indent_replicate_space, show get_indent (lchars ("- 2")) = 0 from by decide]
      omega
    have hindb : get_indent (List.replicate b ' ' ++ lchars ("- 3")) = b := by
      rw [get_indent_replicate_space, show get_indent (lchars ("- 3")) = 0 from by decide]
      omega
    have hdasha : getElem? (List.replicate a ' ' ++ lchars ("- 2")) a = some '-' := by
      rw [getElem_replicate_append]; decide
    have hdashb : getElem? (List.replicate b ' ' ++ lchars ("- 3")) b = some '-' := by
      rw [getElem_replicate_append]; decide
    rw [show parse L = parse_top 125 L 0 [] from by rw [parse]; rfl]
    rw [show (125 : Nat) = 124 + 1 from rfl,
      parse_top_dash 124 L 0 [] _ hg0 (by decide), if_pos (by rfl)]
    have hseq : parse_sequence 124 L 0 0 [] = .error (.inconsistentSeqIndent (0 + 1 + 1)) := by
      rw [show (124 : Nat) = 123 + 1 from rfl,
        parse_seq_multidash 123 L 0 0 [] (lchars ("- - 1")) hg0 (by decide) (by decide)
          (by decide) (by decide) (by decide)]
      rw [show multi_dash_items
          ((trimLeading ((lchars ("- - 1")).drop (0 + 1))).length + 1)
          (trimLeading ((lchars ("- - 1")).drop (0 + 1))) [] = .ok [Value.int 1] from by
        with_unfolding_all rfl]
      rw [ebind_ok]
      rw [show (123 : Nat) = 122 + 1 from rfl,
        cont_seq_take 122 L 0 (0 + 1) none [Value.int 1] _ a hga hlane hinda (by omega) hdasha
          (by simp)]
      rw [show (List.replicate a ' ' ++ lchars ("- 2")).drop (a + 1) = (lchars ("- 2")).drop 1
        from drop_replicate_append a 1 ' ' _]
      rw [show parse_scalar (trimLeading ((lchars ("- 2")).drop 1)) = .ok (.int 2) from by
        with_unfolding_all rfl]
      rw [ebind_ok]
      rw [show (122 : Nat) = 121 + 1 from rfl,
        cont_seq_err 121 L 0 (0 + 1 + 1) a ([Value.int 1] ++ [Value.int 2]) _ b hgb hlbne hindb
          (by omega) hdashb hab]
      rw [ebind_err]
    rw [hseq, emap_err]
  · set L : List (List Char) := [lchars ("- k: 1"),
      List.replicate a ' ' ++ lchars ("k1: 2"),
      List.replicate b ' ' ++ lchars ("k2: 3")] with hL
    have hg0 : getElem? L 0 = some (lchars ("- k: 1")) := rfl
    have hga : getElem? L (0 + 1) = some (List.replicate a ' ' ++ lchars ("k1: 2")) := rfl
    have hgb : getElem? L (0 + 1 + 1) = some (List.replicate b ' ' ++ lchars ("k2: 3")) := rfl
    have hlane : (List.replicate a ' ' ++ lchars ("k1: 2")) ≠ [] := by simp [lchars]
    have hlbne : (List.replicate b ' ' ++ lchars ("k2: 3")) ≠ [] := by simp [lchars]
    have hinda : get_indent (List.replicate a ' ' ++ lchars ("k1: 2")) = a := by
      rw [get_indent_replicate_space, show get_indent (lchars ("k1: 2")) = 0 from by decide]
      omega
    have hindb : get_indent (List.replicate b ' ' ++ lchars ("k2: 3")) = b := by
      rw [get_indent_replicate_space, show get_indent (lchars ("k2: 3")) = 0 from by decide]
      omega
    have hfinda : (List.replicate a ' ' ++ lchars ("k1: 2")).findIdx? (fun c => c = ':') =
        some (2 + a) := by
      rw [findIdx?_append_of_none (by
        rw [List.findIdx?_eq_none_iff]
        intro x hx
        rw [decide_eq_false_iff_not]
        intro hxe
        rw [List.eq_of_mem_replicate hx] at hxe
        exact absurd hxe (by decide))]
      rw [show (lchars ("k1: 2")).findIdx? (fun c => c = ':') = some 2 from by decide]
      simp
    have hfindb : (List.replicate b ' ' ++ lchars ("k2: 3")).findIdx? (fun c => c = ':') =
        some (2 + b) := by
      rw [findIdx?_append_of_none (by
        rw [List.findIdx?_eq_none_iff]
        intro x hx
        rw [decide_eq_false_iff_not]
        intro hxe
        rw [List.eq_of_mem_replicate hx] at hxe
        exact absurd hxe (by decide))]
      rw [show (lchars ("k2: 3")).findIdx? (fun c => c = ':') = some 2 from by decide]
      simp
    rw [show parse L = parse_top 125 L 0 [] from by rw [parse]; rfl]
    rw [show (125 : Nat) = 124 + 1 from rfl,
      parse_top_dash 124 L 0 [] _ hg0 (by decide), if_pos (by rfl)]
    have hseq : parse_sequence 124 L 0 0 [] =
        .ok ([] ++ [.obj [(lchars ("k"), .int 1), (lchars ("k1"), .int 2)]], 0 + 1 + 1) := by
      rw [show (124 : Nat) = 123 + 1 from rfl,
        parse_seq_inline_map 123 L 0 0 [] (lchars ("- k: 1")) 1 hg0 (by decide) (by decide)
          (by decide) (by decide) (by decide) (by decide) (by decide)]
      rw [show parse_scalar (trimLeading ((trimLeading ((lchars ("- k: 1")).drop (0 + 1))).drop (1 + 1))) =
          .ok (.int 1) from by with_unfolding_all rfl]
      rw [emap_ok, ebind_ok]
      rw [show (123 : Nat) = 122 + 1 from rfl,
        cont_map_entry 122 L 0 (0 + 1) none _ _ a (2 + a) hga hlane hinda (by omega) hfinda
          (by simp) ?hvala]
      case hvala =>
        rw [show (2 + a) + 1 = a + 3 from by omega, drop_replicate_append a 3 ' ' _]
        decide
      rw [show (2 + a) + 1 = a + 3 from by omega, drop_replicate_append a 3 ' ' _]
      rw [show parse_scalar (trimLeading ((lchars ("k1: 2")).drop 3)) = .ok (.int 2) from by
        with_unfolding_all rfl]
      rw [ebind_ok]
      rw [show (122 : Nat) = 121 + 1 from rfl,
        cont_map_break 121 L 0 (0 + 1 + 1) a _ _ b (2 + b) hgb hlbne hindb (by omega)
          hfindb hab]
      rw [ebind_ok]
      dsimp only
      rw [parse_seq_stop (121 + 1) L 0 (0 + 1 + 1) _ _ hgb hlbne (by omega)]
      rw [drop_replicate_append_self a ' ' (lchars ("k1: 2")),
        show (2 + a) - a = 2 from by omega]
      with_unfolding_all rfl
    rw [hseq, emap_ok]
    with_unfolding_all rfl

/-- Witness for C6 at indentations 2 and 4. -/
theorem c6_continuation_asymmetry_witness :
    ((1 : Nat) ≤ 2 ∧ (1 : Nat) ≤ 4 ∧ (2 : Nat) ≠ 4) ∧
    parse [lchars ("- - 1"), List.replicate 2 ' ' ++ lchars ("- 2"),
      List.replicate 4 ' ' ++ lchars ("- 3")] = .error (.inconsistentSeqIndent 2) :=
  ⟨⟨by decide, by decide, by decide⟩,
   (c6_continuation_asymmetry 2 4 (by decide) (by decide) (by decide)).1⟩

/-- Any valid digit character lies in the ASCII digit, lowercase, or uppercase range. -/
theorem digit_ranges (base : Nat) (c : Char) (h : (digitInBase base c).isSome) :
    (48 ≤ c.toNat ∧ c.toNat ≤ 57) ∨ (97 ≤ c.toNat ∧ c.toNat ≤ 122) ∨
      (65 ≤ c.toNat ∧ c.toNat ≤ 90) := by
  unfold digitInBase digitValue at h
  by_cases h1 : 48 ≤ c.toNat ∧ c.toNat ≤ 57
  · exact Or.inl h1
  by_cases h2 : 97 ≤ c.toNat ∧ c.toNat ≤ 122
  · exact Or.inr (Or.inl h2)
  by_cases h3 : 65 ≤ c.toNat ∧ c.toNat ≤ 90
  · exact Or.inr (Or.inr h3)
  rw [if_neg h1, if_neg h2, if_neg h3] at h
  simp at h

/-- A valid decimal digit character lies in the ASCII digit range 48-57. -/
theorem digit10_range (c : Char) (h : (digitInBase 10 c).isSome) :
    48 ≤ c.toNat ∧ c.toNat ≤ 57 := by
  unfold digitInBase digitValue at h
  by_cases h1 : 48 ≤ c.toNat ∧ c.toNat ≤ 57
  · exact h1
  rw [if_neg h1] at h
  by_cases h2 : 97 ≤ c.toNat ∧ c.toNat ≤ 122
  · rw [if_pos h2] at h
    simp [Option.bind] at h
  rw [if_neg h2] at h
  by_cases h3 : 65 ≤ c.toNat ∧ c.toNat ≤ 90
  · rw [if_pos h3] at h
    simp [Option.bind] at h
  rw [if_neg h3] at h
  simp at h

/-- Characters with different codes are different. -/
theorem char_ne_of_toNat (c d : Char) (h : c.toNat ≠ d.toNat) : c ≠ d :=
  fun he => h (congrArg Char.toNat he)

/-- Digit characters are not space or tab. -/
theorem digit_not_spacetab (base : Nat) (c : Char) (h : (digitInBase base c).isSome) :
    isSpaceTab c = false := by
  have hr := digit_ranges base c h
  have h1 : c ≠ ' ' := char_ne_of_toNat c ' ' (by rw [show (' ').toNat = 32 from rfl]; omega)
  have h2 : c ≠ '\t' := char_ne_of_toNat c '\t' (by rw [show ('\t').toNat = 9 from rfl]; omega)
  simp [isSpaceTab, h1, h2]

/-- Digit characters are not `strtol` whitespace. -/
theorem digit_not_ws6 (base : Nat) (c : Char) (h : (digitInBase base c).isSome) :
    isWs6 c = false := by
  have hr := digit_ranges base c h
  have h1 : c ≠ ' ' := char_ne_of_toNat c ' ' (by rw [show (' ').toNat = 32 from rfl]; omega)
  have h2 : c ≠ '\t' := char_ne_of_toNat c '\t' (by rw [show ('\t').toNat = 9 from rfl]; omega)
  have h3 : c ≠ nlChar := char_ne_of_toNat c nlChar (by rw [show nlChar.toNat = 10 from rfl]; omega)
  have h4 : c ≠ crChar := char_ne_of_toNat c crChar (by rw [show crChar.toNat = 13 from rfl]; omega)
  have h5 : c ≠ Char.ofNat 11 :=
    char_ne_of_toNat c (Char.ofNat 11) (by rw [show (Char.ofNat 11).toNat = 11 from rfl]; omega)
  have h6 : c ≠ Char.ofNat 12 :=
    char_ne_of_toNat c (Char.ofNat 12) (by rw [show (Char.ofNat 12).toNat = 12 from rfl]; omega)
  simp [isWs6, h1, h2, h3, h4, h5, h6]

/-- Digit characters are not sign characters. -/
theorem digit_not_sign (base : Nat) (c : Char) (h : (digitInBase base c).isSome) :
    c ≠ '-' ∧ c ≠ '+' := by
  have hr := digit_ranges base c h
  exact ⟨char_ne_of_toNat c '-' (by rw [show ('-').toNat = 45 from rfl]; omega),
    char_ne_of_toNat c '+' (by rw [show ('+').toNat = 43 from rfl]; omega)⟩


/-- Dropping a predicate no element satisfies keeps the list. -/
theorem dropWhile_eq_self_of_all (p : Char → Bool) (l : List Char)
    (h : ∀ c ∈ l, p c = false) : l.dropWhile p = l := by
  cases l with
  | nil => rfl
  | cons c r =>
    rw [List.dropWhile_cons, h c (List.mem_cons_self c r)]
    simp

/-- Taking a predicate every element satisfies keeps the list. -/
theorem takeWhile_eq_self_of_all (p : Char → Bool) (l : List Char)
    (h : ∀ c ∈ l, p c = true) : l.takeWhile p = l := by
  induction l with
  | nil => rfl
  | cons c r ih =>
    rw [List.takeWhile_cons, h c (List.mem_cons_self c r)]
    simp only [ite_true]
    rw [ih (fun d hd => h d (List.mem_cons_of_mem c hd))]

/-- Trimming a list with no space or tab is the identity. -/
theorem trimBoth_eq_self (l : List Char) (h : ∀ c ∈ l, isSpaceTab c = false) :
    trimBoth l = l := by
  unfold trimBoth trimLeading trimTrailing
  rw [dropWhile_eq_self_of_all isSpaceTab l h,
    dropWhile_eq_self_of_all isSpaceTab l.reverse (fun c hc => h c (List.mem_reverse.mp hc)),
    List.reverse_reverse]

/-- Lists with different optional heads are `==`-different. -/
theorem beq_false_of_head_ne (l l' : List Char) (h : l.head? ≠ l'.head?) :
    (l == l') = false := by
  rw [beq_eq_false_iff_ne]
  intro he
  exact h (he ▸ rfl)


/-- For a token of non-whitespace characters whose first character is none of the JSON, quote, keyword, sign or dot openers, `parse_scalar` reduces to the numeric section with string fallback. -/
theorem parse_scalar_plain (val : List Char) (c0 : Char) (hh : val.head? = some c0)
    (hnw : ∀ c ∈ val, isSpaceTab c = false)
    (hmem : c0 ∉ (['[', obrace, dQuote, sQuote, 'n', '~', 'N', 't', 'T', 'f', 'F',
      '.', '+', '-'] : List Char)) :
    parse_scalar val = (match numeric_value val with
      | some v => Except.ok v
      | none => Except.ok (Value.str val)) := by
  simp only [List.mem_cons, List.not_mem_nil, or_false, not_or] at hmem
  obtain ⟨h1, h2, h3, h4, h5, h6, h7, h8, h9, h10, h11, h12, h13, h14⟩ := hmem
  have htrim := trimBoth_eq_self val hnw
  have hne : ∀ (w : List Char) (cw : Char), w.head? = some cw → c0 ≠ cw →
      (val == w) = false :=
    fun w cw hw hnec =>
      beq_false_of_head_ne val w
        (by rw [hh, hw]; exact fun he => hnec (Option.some.inj he))
  have hja : is_json_array val = false := by
    simp only [is_json_array]
    rw [htrim, hh]
    simp [h1]
  have hjo : is_json_object val = false := by
    simp only [is_json_object]
    rw [htrim, hh]
    simp [h2]
  have hq : isQuotedVal val = false := by
    simp only [isQuotedVal]
    rw [hh]
    simp [h3, h4]
  have hnull : isNullWord val = false := by
    unfold isNullWord
    rw [hne (lchars ("null")) 'n' rfl h5, hne (lchars ("~")) '~' rfl h6,
      hne (lchars ("Null")) 'N' rfl h7, hne (lchars ("NULL")) 'N' rfl h7]
    rfl
  have htrue : isTrueWord val = false := by
    unfold isTrueWord
    rw [hne (lchars ("true")) 't' rfl h8, hne (lchars ("True")) 'T' rfl h9,
      hne (lchars ("TRUE")) 'T' rfl h9]
    rfl
  have hfalse : isFalseWord val = false := by
    unfold isFalseWord
    rw [hne (lchars ("false")) 'f' rfl h10, hne (lchars ("False")) 'F' rfl h11,
      hne (lchars ("FALSE")) 'F' rfl h11]
    rfl
  have hpi : isPosInfWord val = false := by
    unfold isPosInfWord
    rw [hne (lchars (".inf")) '.' rfl h12, hne (lchars (".Inf")) '.' rfl h12,
      hne (lchars (".INF")) '.' rfl h12, hne (lchars ("+.inf")) '+' rfl h13]
    rfl
  have hni : isNegInfWord val = false := by
    unfold isNegInfWord
    rw [hne (lchars ("-.inf")) '-' rfl h14, hne (lchars ("-.Inf")) '-' rfl h14,
      hne (lchars ("-.INF")) '-' rfl h14]
    rfl
  have hnan : isNanWord val = false := by
    unfold isNanWord
    rw [hne (lchars (".nan")) '.' rfl h12, hne (lchars (".NaN")) '.' rfl h12,
      hne (lchars (".NAN")) '.' rfl h12]
    rfl
  simp only [parse_scalar, htrim, hja, hjo, hq, hnull, htrue, hfalse, hpi, hni, hnan,
    Bool.false_eq_true, if_false]


/-- On a non-empty all-digit token in a non-hex base, `strtolM` returns the base value of the whole token. -/
theorem strtol_all_digits (base : Nat) (d0 : Char) (dtl : List Char)
    (hall : ∀ c ∈ d0 :: dtl, (digitInBase base c).isSome = true) (hb : base ≠ 16) :
    strtolM (d0 :: dtl) base = some ((digitsVal base (d0 :: dtl) : Int)) := by
  have hd0 := hall d0 (List.mem_cons_self d0 dtl)
  obtain ⟨hm, hp⟩ := digit_not_sign base d0 hd0
  simp only [strtolM, List.dropWhile_cons, digit_not_ws6 base d0 hd0,
    Bool.false_eq_true, if_false, splitSign, if_neg hm, if_neg hp, if_neg hb,
    takeWhile_eq_self_of_all _ _ hall]
  rw [if_neg (List.cons_ne_nil d0 dtl)]

/-- On `0x` followed by a non-empty all-hex-digit token, `strtolM` in base 16 consumes the prefix and returns the hex value of the rest. -/
theorem strtol_hex_prefixed (d0 : Char) (dtl : List Char)
    (hall : ∀ c ∈ d0 :: dtl, (digitInBase 16 c).isSome = true) :
    strtolM ('0' :: 'x' :: d0 :: dtl) 16 = some ((digitsVal 16 (d0 :: dtl) : Int)) := by
  have hd0 := hall d0 (List.mem_cons_self d0 dtl)
  simp only [strtolM, List.dropWhile_cons, show isWs6 '0' = false from rfl,
    Bool.false_eq_true, if_false, splitSign,
    if_neg (show ¬('0' = '-') from by decide), if_neg (show ¬('0' = '+') from by decide),
    if_pos rfl, if_true]
  rw [if_pos (show True ∧ (True ∨ 'x' = 'X') ∧ (digitInBase 16 d0).isSome = true from
    ⟨trivial, Or.inl trivial, hd0⟩)]
  rw [takeWhile_eq_self_of_all _ _ hall, if_neg (List.cons_ne_nil d0 dtl)]

/-- When the converted value reaches `2 ^ 31`, `std::stoi` raises `out_of_range` (modelled as `none`). -/
theorem stoi_overflow (s : List Char) (base : Nat) (n : Nat)
    (hs : strtolM s base = some ((n : Nat) : Int)) (hn : 2 ^ 31 ≤ n) :
    stoiM s base = none := by
  unfold stoiM
  rw [hs]
  simp only [Option.some_bind]
  rw [if_neg]
  intro hcon
  have h2 : ((n : Nat) : Int) ≤ 2 ^ 31 - 1 := hcon.2
  have h3 : ((2 ^ 31 : Nat) : Int) ≤ ((n : Nat) : Int) := by exact_mod_cast hn
  have h4 : ((2 ^ 31 : Nat) : Int) = 2 ^ 31 := by push_cast
  have h5 : (2 : Int) ^ 31 = 2147483648 := by norm_num
  omega

/-- A nonnegative converted value below `2 ^ 63` passes the `std::stoll` range check. -/
theorem stoll_in_range (s : List Char) (n : Nat)
    (hs : strtolM s 10 = some ((n : Nat) : Int)) (hlt : n < 2 ^ 63) :
    stollM s = some ((n : Nat) : Int) := by
  unfold stollM
  rw [hs]
  simp only [Option.some_bind]
  rw [if_pos]
  constructor
  · have h0 : (0 : Int) ≤ ((n : Nat) : Int) := Int.natCast_nonneg n
    have h5 : (2 : Int) ^ 63 = 9223372036854775808 := by norm_num
    omega
  · have h3 : ((n : Nat) : Int) < ((2 ^ 63 : Nat) : Int) := by exact_mod_cast hlt
    have h4 : ((2 ^ 63 : Nat) : Int) = 2 ^ 63 := by push_cast
    have h5 : (2 : Int) ^ 63 = 9223372036854775808 := by norm_num
    omega


/-- A hex token whose value reaches `2 ^ 31` makes the numeric section fail (caught exception). -/
theorem numeric_value_hex_overflow (d0 : Char) (dtl : List Char)
    (hall : ∀ c ∈ d0 :: dtl, (digitInBase 16 c).isSome = true)
    (hbig : 2 ^ 31 ≤ digitsVal 16 (d0 :: dtl)) :
    numeric_value ('0' :: 'x' :: d0 :: dtl) = none := by
  unfold numeric_value
  rw [if_pos (show 2 < ('0' :: 'x' :: d0 :: dtl).length ∧
      ('0' :: 'x' :: d0 :: dtl).head? = some '0' from ⟨by simp, rfl⟩)]
  simp only [List.getElem?_cons_succ, List.getElem?_cons_zero]
  rw [if_pos (show True ∨ 'x' = 'X' from Or.inl trivial)]
  rw [stoi_overflow _ 16 (digitsVal 16 (d0 :: dtl)) (strtol_hex_prefixed d0 dtl hall) hbig]
  rfl

/-- An octal token whose value reaches `2 ^ 31` makes the numeric section fail (caught exception). -/
theorem numeric_value_oct_overflow (d0 : Char) (dtl : List Char)
    (hall : ∀ c ∈ d0 :: dtl, (digitInBase 8 c).isSome = true)
    (hbig : 2 ^ 31 ≤ digitsVal 8 (d0 :: dtl)) :
    numeric_value ('0' :: 'o' :: d0 :: dtl) = none := by
  unfold numeric_value
  rw [if_pos (show 2 < ('0' :: 'o' :: d0 :: dtl).length ∧
      ('0' :: 'o' :: d0 :: dtl).head? = some '0' from ⟨by simp, rfl⟩)]
  simp only [List.getElem?_cons_succ, List.getElem?_cons_zero]
  rw [if_neg (show ¬('o' = 'x' ∨ 'o' = 'X') from by decide), if_pos (show True ∨ 'o' = 'O' from Or.inl trivial)]
  rw [show ('0' :: 'o' :: d0 :: dtl).drop 2 = d0 :: dtl from rfl]
  rw [stoi_overflow _ 8 (digitsVal 8 (d0 :: dtl))
    (strtol_all_digits 8 d0 dtl hall (by decide)) hbig]
  rfl

/-- A binary token whose value reaches `2 ^ 31` makes the numeric section fail (caught exception). -/
theorem numeric_value_bin_overflow (d0 : Char) (dtl : List Char)
    (hall : ∀ c ∈ d0 :: dtl, (digitInBase 2 c).isSome = true)
    (hbig : 2 ^ 31 ≤ digitsVal 2 (d0 :: dtl)) :
    numeric_value ('0' :: 'b' :: d0 :: dtl) = none := by
  unfold numeric_value
  rw [if_pos (show 2 < ('0' :: 'b' :: d0 :: dtl).length ∧
      ('0' :: 'b' :: d0 :: dtl).head? = some '0' from ⟨by simp, rfl⟩)]
  simp only [List.getElem?_cons_succ, List.getElem?_cons_zero]
  rw [if_neg (show ¬('b' = 'x' ∨ 'b' = 'X') from by decide),
    if_neg (show ¬('b' = 'o' ∨ 'b' = 'O') from by decide), if_pos (show True ∨ 'b' = 'B' from Or.inl trivial)]
  rw [show ('0' :: 'b' :: d0 :: dtl).drop 2 = d0 :: dtl from rfl]
  rw [stoi_overflow _ 2 (digitsVal 2 (d0 :: dtl))
    (strtol_all_digits 2 d0 dtl hall (by decide)) hbig]
  rfl


/-- A non-empty all-decimal-digit token below `2 ^ 63` converts through `std::stoll` to its integer value. -/
theorem numeric_plain_dec (d0 : Char) (dtl : List Char)
    (hall : ∀ c ∈ d0 :: dtl, (digitInBase 10 c).isSome = true)
    (hlt : digitsVal 10 (d0 :: dtl) < 2 ^ 63) :
    numeric_plain (d0 :: dtl) = some (Value.int ((digitsVal 10 (d0 :: dtl) : Int))) := by
  have hnoDot : ¬('.' ∈ d0 :: dtl ∨ 'e' ∈ d0 :: dtl ∨ 'E' ∈ d0 :: dtl) := by
    rintro (h | h | h)
    · have hr := digit10_range '.' (hall '.' h)
      rw [show ('.').toNat = 46 from rfl] at hr
      omega
    · have hr := digit10_range 'e' (hall 'e' h)
      rw [show ('e').toNat = 101 from rfl] at hr
      omega
    · have hr := digit10_range 'E' (hall 'E' h)
      rw [show ('E').toNat = 69 from rfl] at hr
      omega
  obtain ⟨hm, hp⟩ := digit_not_sign 10 d0 (hall d0 (List.mem_cons_self d0 dtl))
  unfold numeric_plain
  rw [if_neg hnoDot]
  simp only [List.head?_cons]
  rw [if_neg (show ¬(d0 = '-' ∨ d0 = '+') from by rintro (h | h); exacts [hm h, hp h])]
  rw [stoll_in_range _ _ (strtol_all_digits 10 d0 dtl hall (by decide)) hlt]
  rfl

/-- The numeric section maps a non-empty all-decimal-digit token below `2 ^ 63` to its integer value, also when it starts with `0` (the second character is a digit, so no base prefix fires). -/
theorem numeric_value_dec (d0 : Char) (dtl : List Char)
    (hall : ∀ c ∈ d0 :: dtl, (digitInBase 10 c).isSome = true)
    (hlt : digitsVal 10 (d0 :: dtl) < 2 ^ 63) :
    numeric_value (d0 :: dtl) = some (Value.int ((digitsVal 10 (d0 :: dtl) : Int))) := by
  by_cases hc : 2 < (d0 :: dtl).length ∧ (d0 :: dtl).head? = some '0'
  · unfold numeric_value
    rw [if_pos hc]
    obtain ⟨hlen, hh0⟩ := hc
    cases dtl with
    | nil => simp at hlen
    | cons d1 dtl2 =>
      simp only [List.getElem?_cons_succ, List.getElem?_cons_zero]
      have hd1 := digit10_range d1 (hall d1 (by simp))
      have hx : ¬(d1 = 'x' ∨ d1 = 'X') := by
        rintro (h | h) <;> subst h <;> revert hd1 <;> decide
      have ho : ¬(d1 = 'o' ∨ d1 = 'O') := by
        rintro (h | h) <;> subst h <;> revert hd1 <;> decide
      have hb : ¬(d1 = 'b' ∨ d1 = 'B') := by
        rintro (h | h) <;> subst h <;> revert hd1 <;> decide
      rw [if_neg hx, if_neg ho, if_neg hb]
      exact numeric_plain_dec d0 (d1 :: dtl2) hall hlt
  · unfold numeric_value
    rw [if_neg hc]
    exact numeric_plain_dec d0 dtl hall hlt


/-- C10: base-prefixed integer tokens use the 32-bit `std::stoi` range while plain decimal tokens use the 64-bit `std::stoll` range: every hex, octal or binary token whose value reaches `2 ^ 31` degrades to the token text as a string, while a plain decimal token of value at least `2 ^ 31` and below `2 ^ 63` stays a 64-bit integer. -/
theorem c10_int_range_asymmetry (dh dso dsb dd : List Char) :
    (dh ≠ [] → (∀ c ∈ dh, (digitInBase 16 c).isSome = true) →
      2 ^ 31 ≤ digitsVal 16 dh →
      parse_scalar ('0' :: 'x' :: dh) = Except.ok (Value.str ('0' :: 'x' :: dh))) ∧
    (dso ≠ [] → (∀ c ∈ dso, (digitInBase 8 c).isSome = true) →
      2 ^ 31 ≤ digitsVal 8 dso →
      parse_scalar ('0' :: 'o' :: dso) = Except.ok (Value.str ('0' :: 'o' :: dso))) ∧
    (dsb ≠ [] → (∀ c ∈ dsb, (digitInBase 2 c).isSome = true) →
      2 ^ 31 ≤ digitsVal 2 dsb →
      parse_scalar ('0' :: 'b' :: dsb) = Except.ok (Value.str ('0' :: 'b' :: dsb))) ∧
    (dd ≠ [] → (∀ c ∈ dd, (digitInBase 10 c).isSome = true) →
      2 ^ 31 ≤ digitsVal 10 dd → digitsVal 10 dd < 2 ^ 63 →
      parse_scalar dd = Except.ok (Value.int ((digitsVal 10 dd : Int)))) := by
  refine ⟨?_, ?_, ?_, ?_⟩
  · intro hne hall hbig
    cases dh with
    | nil => exact absurd rfl hne
    | cons d0 dtl =>
      have hnw : ∀ c ∈ '0' :: 'x' :: d0 :: dtl, isSpaceTab c = false := by
        intro c hc
        rcases List.mem_cons.mp hc with h | hc2
        · subst h; decide
        rcases List.mem_cons.mp hc2 with h | hc3
        · subst h; decide
        exact digit_not_spacetab 16 c (hall c hc3)
      rw [parse_scalar_plain ('0' :: 'x' :: d0 :: dtl) '0' rfl hnw (by decide)]
      rw [numeric_value_hex_overflow d0 dtl hall hbig]
  · intro hne hall hbig
    cases dso with
    | nil => exact absurd rfl hne
    | cons d0 dtl =>
      have hnw : ∀ c ∈ '0' :: 'o' :: d0 :: dtl, isSpaceTab c = false := by
        intro c hc
        rcases List.mem_cons.mp hc with h | hc2
        · subst h; decide
        rcases List.mem_cons.mp hc2 with h | hc3
        · subst h; decide
        exact digit_not_spacetab 8 c (hall c hc3)
      rw [parse_scalar_plain ('0' :: 'o' :: d0 :: dtl) '0' rfl hnw (by decide)]
      rw [numeric_value_oct_overflow d0 dtl hall hbig]
  · intro hne hall hbig
    cases dsb with
    | nil => exact absurd rfl hne
    | cons d0 dtl =>
      have hnw : ∀ c ∈ '0' :: 'b' :: d0 :: dtl, isSpaceTab c = false := by
        intro c hc
        rcases List.mem_cons.mp hc with h | hc2
        · subst h; decide
        rcases List.mem_cons.mp hc2 with h | hc3
        · subst h; decide
        exact digit_not_spacetab 2 c (hall c hc3)
      rw [parse_scalar_plain ('0' :: 'b' :: d0 :: dtl) '0' rfl hnw (by decide)]
      rw [numeric_value_bin_overflow d0 dtl hall hbig]
  · intro hne hall hbig hlt
    cases dd with
    | nil => exact absurd rfl hne
    | cons d0 dtl =>
      have hd0r := digit10_range d0 (hall d0 (List.mem_cons_self d0 dtl))
      have hnw : ∀ c ∈ d0 :: dtl, isSpaceTab c = false :=
        fun c hc => digit_not_spacetab 10 c (hall c hc)
      have hmem : d0 ∉ (['[', obrace, dQuote, sQuote, 'n', '~', 'N', 't', 'T', 'f', 'F',
          '.', '+', '-'] : List Char) := by
        intro hm
        simp only [List.mem_cons, List.not_mem_nil, or_false] at hm
        rcases hm with h | h | h | h | h | h | h | h | h | h | h | h | h | h <;>
          subst h <;> revert hd0r <;> decide
      rw [parse_scalar_plain (d0 :: dtl) d0 rfl hnw hmem]
      rw [numeric_value_dec d0 dtl hall hlt]


/-- Witness for C10 at `0x80000000`, `0o20000000000`, `0b` plus 32 ones, and `2147483648`: the three prefixed tokens (each of value at least `2 ^ 31`) come back as strings and the decimal one as the integer 2147483648. -/
theorem c10_int_range_asymmetry_witness :
    ((lchars ("80000000") ≠ [] ∧ (∀ c ∈ lchars ("80000000"), (digitInBase 16 c).isSome = true) ∧
        2 ^ 31 ≤ digitsVal 16 (lchars ("80000000"))) ∧
      (lchars ("2147483648") ≠ [] ∧
        (∀ c ∈ lchars ("2147483648"), (digitInBase 10 c).isSome = true) ∧
        2 ^ 31 ≤ digitsVal 10 (lchars ("2147483648")) ∧
        digitsVal 10 (lchars ("2147483648")) < 2 ^ 63)) ∧
    parse_scalar ('0' :: 'x' :: lchars ("80000000")) =
      Except.ok (Value.str ('0' :: 'x' :: lchars ("80000000"))) ∧
    parse_scalar ('0' :: 'o' :: lchars ("20000000000")) =
      Except.ok (Value.str ('0' :: 'o' :: lchars ("20000000000"))) ∧
    parse_scalar ('0' :: 'b' :: List.replicate 32 '1') =
      Except.ok (Value.str ('0' :: 'b' :: List.replicate 32 '1')) ∧
    parse_scalar (lchars ("2147483648")) = Except.ok (Value.int 2147483648) := by
  obtain ⟨hx, ho, hb, hd⟩ := c10_int_range_asymmetry (lchars ("80000000"))
    (lchars ("20000000000")) (List.replicate 32 '1') (lchars ("2147483648"))
  refine ⟨⟨⟨by decide, by decide, by decide⟩, by decide, by decide, by decide, by decide⟩,
    hx (by decide) (by decide) (by decide),
    ho (by decide) (by decide) (by decide),
    hb (by decide) (by decide) (by decide), ?_⟩
  have h := hd (by decide) (by decide) (by decide) (by decide)
  rw [h]
  with_unfolding_all rfl

end Yaml
